import Mathlib

/-!
# Verification of the `embers` generation-pipeline server

Shallow embedding of the server's cache-key normalization, shape cache,
mask-to-face fusion, face-id decoding, model registry surface, and the
synchronous generation orchestrator, together with proofs and refutations
of the specification claims about them.

Text is modelled as `List Char` (ASCII semantics for `str.lower`,
`\w`/`\s` character classes and `str.split`), pixel grids as flat lists
(row-major, exactly how numpy boolean indexing linearizes them), and
machine floats that only ever feed comparisons as `ℚ`.
-/

namespace Embers

/-! ## Key normalization (`app/cache/shape_cache.py`, `normalize_key`) -/

/-- Python `\s` / `str.split()` whitespace (ASCII subset). -/
def isPySpace (c : Char) : Bool :=
  c = ' ' || c = '\t' || c = '\n' || c = '\r' || c = '\x0b' || c = '\x0c'

/-- Python `\w` word characters (ASCII subset): alphanumerics and `_`. -/
def isWordChar (c : Char) : Bool :=
  c.isAlpha || c.isDigit || c = '_'

/-- `str.lower()` character-wise (ASCII). -/
def lowerStr (s : List Char) : List Char := s.map Char.toLower

/-- `str.strip()`: drop leading and trailing whitespace. -/
def pyStrip (s : List Char) : List Char :=
  ((s.dropWhile isPySpace).reverse.dropWhile isPySpace).reverse

/-- `re.sub(r"[^\w\s]", "", text)`: delete every char that is neither a
word character nor whitespace. -/
def subNonWord (s : List Char) : List Char :=
  s.filter (fun c => isWordChar c || isPySpace c)

/-- One step of word splitting (processed right-to-left by `foldr`):
whitespace opens a new (possibly empty) word, a non-space char is
prepended to the current word. -/
def splitStep (c : Char) (ws : List (List Char)) : List (List Char) :=
  if isPySpace c then [] :: ws
  else
    match ws with
    | [] => [[c]]
    | w :: rest => (c :: w) :: rest

/-- Raw word decomposition before discarding empty fragments. -/
def splitRaw (s : List Char) : List (List Char) := s.foldr splitStep []

/-- Python `str.split()` with no argument: split on whitespace runs,
discarding empty fragments. -/
def splitWords (s : List Char) : List (List Char) :=
  (splitRaw s).filter (fun w => !w.isEmpty)

/-- The `_ARTICLES` stop-word set. -/
def articles : List (List Char) := [['a'], ['a', 'n'], ['t', 'h', 'e']]

/-- `" ".join(words)`. -/
def joinSpace : List (List Char) → List Char
  | [] => []
  | [w] => w
  | w :: v :: t => w ++ ' ' :: joinSpace (v :: t)

/-- `ShapeCache.normalize_key`: lowercase and strip, delete punctuation,
split into words, drop articles, rejoin with single spaces; if no word
survives, return the processed (lowercased, punctuation-free) text. -/
def normalize_key (s : List Char) : List Char :=
  let t := subNonWord (pyStrip (lowerStr s))
  let ws := (splitWords t).filter (fun w => !(articles.contains w))
  if ws.isEmpty then t else joinSpace ws

/-! ### Lemmas about normalization -/

lemma toLower_idem (c : Char) : c.toLower.toLower = c.toLower := by
  simp only [Char.toLower]
  split
  · next h =>
    obtain ⟨h1, h2⟩ := h
    set n := c.toNat with hn
    interval_cases n <;> decide
  · next h => simp [h]

lemma map_toLower_eq_self {l : List Char} (h : ∀ c ∈ l, c.toLower = c) :
    l.map Char.toLower = l := by
  induction l with
  | nil => rfl
  | cons c cs ih =>
    simp only [List.map_cons, h c (by simp), ih fun d hd => h d (by simp [hd])]

/-- Every character of every raw word fragment comes from the source list
and is not whitespace. -/
lemma mem_splitRaw (s : List Char) :
    ∀ w ∈ splitRaw s, ∀ c ∈ w, c ∈ s ∧ isPySpace c = false := by
  induction s with
  | nil => simp [splitRaw]
  | cons a s ih =>
    intro w hw c hc
    have hstep : splitRaw (a :: s) = splitStep a (splitRaw s) := rfl
    rw [hstep] at hw
    cases hsp : isPySpace a with
    | true =>
      rw [show splitStep a (splitRaw s) = [] :: splitRaw s by
        simp [splitStep, hsp]] at hw
      rcases List.mem_cons.mp hw with hw | hw
      · subst hw; cases hc
      · have := ih w hw c hc
        exact ⟨List.mem_cons_of_mem _ this.1, this.2⟩
    | false =>
      cases hX : splitRaw s with
      | nil =>
        rw [show splitStep a (splitRaw s) = [[a]] by
          simp [splitStep, hsp, hX]] at hw
        have hw' : w = [a] := by simpa using hw
        subst hw'
        have hc' : c = a := by simpa using hc
        subst hc'
        exact ⟨List.mem_cons_self _ _, hsp⟩
      | cons w0 rest =>
        rw [show splitStep a (splitRaw s) = (a :: w0) :: rest by
          simp [splitStep, hsp, hX]] at hw
        rcases List.mem_cons.mp hw with hw | hw
        · subst hw
          rcases List.mem_cons.mp hc with hc | hc
          · subst hc; exact ⟨List.mem_cons_self _ _, hsp⟩
          · have : c ∈ s ∧ isPySpace c = false :=
              ih w0 (by rw [hX]; exact List.mem_cons_self _ _) c hc
            exact ⟨List.mem_cons_of_mem _ this.1, this.2⟩
        · have : c ∈ s ∧ isPySpace c = false :=
            ih w (by rw [hX]; exact List.mem_cons_of_mem _ hw) c hc
          exact ⟨List.mem_cons_of_mem _ this.1, this.2⟩

lemma mem_splitWords {s w : List Char} (hw : w ∈ splitWords s) :
    w ≠ [] ∧ ∀ c ∈ w, c ∈ s ∧ isPySpace c = false := by
  rw [splitWords, List.mem_filter] at hw
  exact ⟨by simpa using hw.2, mem_splitRaw s w hw.1⟩

/-- Folding the split step over a whitespace-free word prepends it to the
first fragment of the seed. -/
lemma foldr_splitStep_spacefree {w : List Char} (h : ∀ c ∈ w, isPySpace c = false)
    (h0 : List Char) (t : List (List Char)) :
    List.foldr splitStep (h0 :: t) w = (w ++ h0) :: t := by
  induction w with
  | nil => rfl
  | cons c cs ih =>
    have hc : isPySpace c = false := h c (by simp)
    have hcs : ∀ d ∈ cs, isPySpace d = false := fun d hd => h d (by simp [hd])
    simp only [List.foldr_cons, ih hcs, splitStep, hc, List.cons_append,
      Bool.false_eq_true, if_false]

lemma foldr_splitStep_spacefree_nil {w : List Char} (h : ∀ c ∈ w, isPySpace c = false)
    (hw : w ≠ []) : List.foldr splitStep [] w = [w] := by
  cases w with
  | nil => cases hw rfl
  | cons c cs =>
    have hc : isPySpace c = false := h c (by simp)
    cases cs with
    | nil => simp [splitStep, hc]
    | cons d ds =>
      have : List.foldr splitStep [] (d :: ds) = [d :: ds] :=
        foldr_splitStep_spacefree_nil (fun e he => h e (List.mem_cons_of_mem _ he))
          (by simp)
      simp only [List.foldr_cons, this, splitStep, hc, Bool.false_eq_true, if_false]

lemma splitRaw_space_cons (x : List Char) : splitRaw (' ' :: x) = [] :: splitRaw x := by
  simp [splitRaw, splitStep, isPySpace]

lemma splitRaw_append (a b : List Char) :
    splitRaw (a ++ b) = List.foldr splitStep (splitRaw b) a :=
  List.foldr_append ..

/-- A predicate for words as they appear after splitting: non-empty and
whitespace-free. -/
def goodWord (w : List Char) : Prop := w ≠ [] ∧ ∀ c ∈ w, isPySpace c = false

lemma splitRaw_joinSpace : ∀ ws : List (List Char), (∀ w ∈ ws, goodWord w) →
    splitRaw (joinSpace ws) = ws := by
  intro ws
  induction ws with
  | nil => intro _; rfl
  | cons w t ih =>
    intro hgood
    have hw : goodWord w := hgood w (by simp)
    cases t with
    | nil =>
      show splitRaw w = [w]
      exact foldr_splitStep_spacefree_nil hw.2 hw.1
    | cons v t' =>
      have : joinSpace (w :: v :: t') = w ++ ' ' :: joinSpace (v :: t') := rfl
      rw [this]
      have hsp : (' ' :: joinSpace (v :: t')) = [' '] ++ joinSpace (v :: t') := rfl
      rw [splitRaw_append, show splitRaw (' ' :: joinSpace (v :: t')) =
        [] :: splitRaw (joinSpace (v :: t')) from splitRaw_space_cons _,
        ih fun u hu => hgood u (by simp [hu]),
        foldr_splitStep_spacefree hw.2]
      simp

lemma splitWords_joinSpace {ws : List (List Char)} (h : ∀ w ∈ ws, goodWord w) :
    splitWords (joinSpace ws) = ws := by
  rw [splitWords, splitRaw_joinSpace ws h, List.filter_eq_self]
  intro w hw
  simpa using (h w hw).1

lemma mem_joinSpace : ∀ {ws : List (List Char)} {c : Char}, c ∈ joinSpace ws →
    (∃ w ∈ ws, c ∈ w) ∨ c = ' ' := by
  intro ws
  induction ws with
  | nil => intro c hc; cases hc
  | cons w t ih =>
    intro c hc
    cases t with
    | nil => exact Or.inl ⟨w, by simp, hc⟩
    | cons v t' =>
      have : joinSpace (w :: v :: t') = w ++ ' ' :: joinSpace (v :: t') := rfl
      rw [this, List.mem_append] at hc
      rcases hc with hc | hc
      · exact Or.inl ⟨w, by simp, hc⟩
      · rcases hc with _ | ⟨_, hc⟩
        · exact Or.inr rfl
        · rcases ih hc with ⟨u, hu, hcu⟩ | hsp
          · exact Or.inl ⟨u, by simp [hu], hcu⟩
          · exact Or.inr hsp

lemma head?_joinSpace {w : List Char} (t : List (List Char)) (hw : w ≠ []) :
    (joinSpace (w :: t)).head? = w.head? := by
  cases t with
  | nil => rfl
  | cons v t' =>
    have : joinSpace (w :: v :: t') = w ++ ' ' :: joinSpace (v :: t') := rfl
    rw [this, List.head?_append]
    cases w with
    | nil => cases hw rfl
    | cons c cs => rfl

lemma getLast?_joinSpace : ∀ (ws : List (List Char)) (wl : List Char),
    (∀ w ∈ ws, w ≠ []) → ws.getLast? = some wl →
    (joinSpace ws).getLast? = wl.getLast? := by
  intro ws
  induction ws with
  | nil => intro wl _ h; cases h
  | cons w t ih =>
    intro wl hne hlast
    cases t with
    | nil =>
      simp only [List.getLast?_singleton, Option.some.injEq] at hlast
      subst hlast; rfl
    | cons v t' =>
      have hlast' : (v :: t').getLast? = some wl := by
        rwa [List.getLast?_cons_cons] at hlast
      have hj : joinSpace (w :: v :: t') = w ++ ' ' :: joinSpace (v :: t') := rfl
      have hrec : (joinSpace (v :: t')).getLast? = wl.getLast? :=
        ih wl (fun u hu => hne u (by simp [hu])) hlast'
      have hwl : wl ≠ [] := by
        have : wl ∈ v :: t' := by
          have := List.mem_of_mem_getLast? (l := v :: t') (by rw [hlast']; rfl)
          exact this
        exact hne wl (by simp [this])
      have hwlsome : ∃ c, wl.getLast? = some c := by
        cases hc : wl.getLast? with
        | none => exact absurd (List.getLast?_eq_none_iff.mp hc) hwl
        | some c => exact ⟨c, rfl⟩
      obtain ⟨c, hc⟩ := hwlsome
      rw [hj, List.getLast?_append]
      have : (' ' :: joinSpace (v :: t')).getLast? = some c := by
        have h2 : (' ' :: joinSpace (v :: t')) = [' '] ++ joinSpace (v :: t') := rfl
        rw [h2, List.getLast?_append, hrec, hc]; rfl
      rw [this, hc]; rfl

lemma dropWhile_eq_self_of_head? {p : Char → Bool} {l : List Char}
    (h : ∀ c, l.head? = some c → p c = false) : l.dropWhile p = l := by
  cases l with
  | nil => rfl
  | cons c cs => rw [List.dropWhile_cons, h c rfl]; simp

lemma pyStrip_eq_self {l : List Char}
    (h1 : ∀ c, l.head? = some c → isPySpace c = false)
    (h2 : ∀ c, l.getLast? = some c → isPySpace c = false) : pyStrip l = l := by
  unfold pyStrip
  rw [dropWhile_eq_self_of_head? h1]
  rw [dropWhile_eq_self_of_head? (by
    intro c hc
    rw [List.head?_reverse] at hc
    exact h2 c hc)]
  exact List.reverse_reverse l

lemma subNonWord_eq_self {l : List Char}
    (h : ∀ c ∈ l, (isWordChar c || isPySpace c) = true) : subNonWord l = l :=
  List.filter_eq_self.mpr h

/-! ### C4 theorems -/

/-- Characters surviving into the processed text of `normalize_key` are
lower-fixed word characters or whitespace. -/
lemma processed_chars {s : List Char} {c : Char}
    (hc : c ∈ subNonWord (pyStrip (lowerStr s))) :
    (isWordChar c || isPySpace c) = true ∧ c.toLower = c := by
  rw [subNonWord, List.mem_filter] at hc
  refine ⟨hc.2, ?_⟩
  have hmem : c ∈ pyStrip (lowerStr s) := hc.1
  have hmem2 : c ∈ lowerStr s := by
    unfold pyStrip at hmem
    have h1 := (List.dropWhile_sublist (l := (lowerStr s).dropWhile isPySpace |>.reverse)
      isPySpace).mem (by simpa using hmem)
    rw [List.mem_reverse] at h1
    exact (List.dropWhile_sublist (l := lowerStr s) isPySpace).mem h1
  rw [lowerStr, List.mem_map] at hmem2
  obtain ⟨d, _, hd⟩ := hmem2
  rw [← hd]
  exact toLower_idem d

/-- C4 counterexample: `normalize_key` is not idempotent.  On `"the !"` the
stop-word fallback returns the processed text `"the "` (punctuation deleted
after stripping, leaving a trailing space), and a second application strips
that space, producing `"the"`. -/
theorem normalize_key_not_idempotent :
    normalize_key (normalize_key ['t', 'h', 'e', ' ', '!']) ≠
      normalize_key ['t', 'h', 'e', ' ', '!'] := by decide

/-- C4 (amended): `normalize_key` is deterministic (it is a pure function),
and it is idempotent on every input whose processed text still contains at
least one non-article token, i.e. whenever the stop-word fallback branch is
not taken.  (In the fallback branch the result may carry edge whitespace
that a second application strips, per the counterexample.) -/
theorem normalize_key_idempotent_of_worded (s : List Char)
    (h : ((splitWords (subNonWord (pyStrip (lowerStr s)))).filter
      (fun w => !(articles.contains w))).isEmpty = false) :
    normalize_key (normalize_key s) = normalize_key s := by
  set t := subNonWord (pyStrip (lowerStr s)) with ht
  set ws := (splitWords t).filter (fun w => !(articles.contains w)) with hws
  have h1 : normalize_key s = joinSpace ws := by
    rw [normalize_key, ← ht, ← hws, if_neg (by simp [h])]
  have hword : ∀ w ∈ ws, goodWord w ∧ ∀ c ∈ w, c ∈ t := by
    intro w hw
    have hw' : w ∈ splitWords t := (List.mem_filter.mp hw).1
    have hm := mem_splitWords hw'
    exact ⟨⟨hm.1, fun c hc => (hm.2 c hc).2⟩, fun c hc => (hm.2 c hc).1⟩
  have hcr : ∀ w ∈ ws, ∀ c ∈ w,
      (isWordChar c || isPySpace c) = true ∧ c.toLower = c ∧ isPySpace c = false := by
    intro w hw c hc
    have hp := processed_chars (s := s) (((hword w hw).2) c hc)
    exact ⟨hp.1, hp.2, ((hword w hw).1).2 c hc⟩
  have hwsne : ws ≠ [] := by
    intro hcon
    rw [hcon] at h
    simp at h
  have ha : lowerStr (joinSpace ws) = joinSpace ws := by
    apply map_toLower_eq_self
    intro c hc
    rcases mem_joinSpace hc with ⟨w, hw, hcw⟩ | hsp
    · exact (hcr w hw c hcw).2.1
    · rw [hsp]; decide
  have hb : pyStrip (joinSpace ws) = joinSpace ws := by
    apply pyStrip_eq_self
    · intro c hc
      obtain ⟨w0, t0, hws0⟩ : ∃ w0 t0, ws = w0 :: t0 :=
        List.exists_cons_of_ne_nil hwsne
      rw [hws0] at hc
      rw [head?_joinSpace t0 ((hword w0 (by rw [hws0]; simp)).1).1] at hc
      have hcm : c ∈ w0 := by
        cases w0 with
        | nil => cases hc
        | cons d ds =>
          have : d = c := by simpa using hc
          rw [← this]; simp
      exact (hcr w0 (by rw [hws0]; simp) c hcm).2.2
    · intro c hc
      obtain ⟨wl, hwl⟩ : ∃ wl, ws.getLast? = some wl := by
        cases hcase : ws.getLast? with
        | none => exact absurd (List.getLast?_eq_none_iff.mp hcase) hwsne
        | some x => exact ⟨x, rfl⟩
      have hwlm : wl ∈ ws := List.mem_of_mem_getLast? (by rw [hwl]; rfl)
      rw [getLast?_joinSpace ws wl (fun u hu => ((hword u hu).1).1) hwl] at hc
      have hcm : c ∈ wl := List.mem_of_mem_getLast? (by rw [hc]; rfl)
      exact (hcr wl hwlm c hcm).2.2
  have hc2 : subNonWord (joinSpace ws) = joinSpace ws := by
    apply subNonWord_eq_self
    intro c hc
    rcases mem_joinSpace hc with ⟨w, hw, hcw⟩ | hsp
    · exact (hcr w hw c hcw).1
    · rw [hsp]; decide
  have hd : splitWords (joinSpace ws) = ws :=
    splitWords_joinSpace fun w hw => (hword w hw).1
  have he : ws.filter (fun w => !(articles.contains w)) = ws := by
    apply List.filter_eq_self.mpr
    intro w hw
    have hw' : w ∈ (splitWords t).filter (fun w => !(articles.contains w)) := hw
    exact (List.mem_filter.mp hw').2
  rw [h1, normalize_key, ha, hb, hc2, hd, he, if_neg (by simp [h])]

/-- C4 witness: the amended idempotence theorem applied to `"The  Horse!"`. -/
theorem normalize_key_idempotent_witness :
    normalize_key (normalize_key ['T', 'h', 'e', ' ', ' ', 'H', 'o', 'r', 's', 'e', '!']) =
      normalize_key ['T', 'h', 'e', ' ', ' ', 'H', 'o', 'r', 's', 'e', '!'] :=
  normalize_key_idempotent_of_worded _ (by decide)

/-! ## Face-identity pass (`app/pipeline/mesh_renderer.py`) -/

/-- `_encode_face_id`: pack a face index into a 24-bit RGB triple. -/
def encode_face_id (faceIdx : Nat) : Nat × Nat × Nat :=
  ((faceIdx >>> 16) &&& 255, (faceIdx >>> 8) &&& 255, faceIdx &&& 255)

/-- `_decode_face_id`: unpack an RGB color back to an integer. -/
def decode_face_id (r g b : Nat) : Nat := (r <<< 16) ||| (g <<< 8) ||| b

/-- The decode step at the end of `_render_id_pass`, per pixel: the map is
initialized to `-1`, pixels whose decoded value is strictly positive receive
that value, and values at or above the face count are clamped back to `-1`
as a corruption guard.  (The rendered image itself comes from the external
`pyrender` call and is treated as arbitrary pixel data.) -/
def idPassPixel (numFaces : Nat) (p : Nat × Nat × Nat) : Int :=
  let d := decode_face_id p.1 p.2.1 p.2.2
  if 0 < d then (if (numFaces : Int) ≤ (d : Int) then -1 else (d : Int)) else -1

/-- The face-identity map produced by `_render_id_pass` from a rendered
image (pixels row-major). -/
def render_id_decode (numFaces : Nat) (pixels : List (Nat × Nat × Nat)) : List Int :=
  pixels.map (idPassPixel numFaces)

/-- C10: every entry of a face-identity map is either the background
sentinel `-1` or lies in `[1, numFaces)`; face index `0` is never reported,
and indeed its 24-bit encoding is `(0,0,0)`, the background color. -/
theorem face_id_map_range (numFaces : Nat) (pixels : List (Nat × Nat × Nat)) :
    (∀ v ∈ render_id_decode numFaces pixels,
        v = -1 ∨ (1 ≤ v ∧ v < (numFaces : Int))) ∧
      encode_face_id 0 = (0, 0, 0) := by
  constructor
  · intro v hv
    rw [render_id_decode, List.mem_map] at hv
    obtain ⟨p, _, hp⟩ := hv
    rw [← hp]
    simp only [idPassPixel]
    split_ifs with hd hn
    · exact Or.inl rfl
    · exact Or.inr ⟨by exact_mod_cast hd, by omega⟩
    · exact Or.inl rfl
  · rfl

/-- C10 witness: the range theorem applied to a concrete 2×1 image whose
pixels decode to face 3 and to the background, with 5 faces. -/
theorem face_id_map_range_witness :
    (3 : Int) = -1 ∨ (1 ≤ (3 : Int) ∧ (3 : Int) < ((5 : Nat) : Int)) :=
  (face_id_map_range 5 [(0, 0, 3), (0, 0, 0)]).1 3 (by decide)

/-! ## Shape cache and the cache-hit path
(`app/cache/shape_cache.py`, `app/services/pipeline.py`) -/

/-- The response object produced once per cache miss.  The `schemas` module
is not among the analyzed sources; the field list is taken from the
constructor call in `_generate_traced` (pipeline.py) and the spec's
GenerationResult. -/
structure GenerateResponse where
  positions : List (ℚ × ℚ × ℚ)
  part_ids : List Nat
  part_names : List String
  template_type : String
  bounding_box : (ℚ × ℚ × ℚ) × (ℚ × ℚ × ℚ)
  cached : Bool
  generation_time_ms : Nat
  pipeline : String
deriving DecidableEq, Repr

/-- Modelled from the spec: ContentHash — `_hash_key` is a truncated
cryptographic digest of the normalized key (`hashlib.sha256`, external
library code).  It is modelled by a concrete deterministic digest; the
claims settled here depend only on the addressing being a deterministic
function of the normalized key. -/
def hash_key (normalized : List Char) : Nat :=
  normalized.foldl (fun h c => (h * 131 + c.toNat) % (2 ^ 64)) 5381

/-- The in-process cache tier.  Python stores object references: `heap`
holds the objects, `memory` maps content hashes to heap addresses, so a
memory-tier hit returns an alias of the stored object.  (LRU recency
reordering and the hit counters do not affect any value read here and are
omitted; eviction is not exercised by the hit path.) -/
structure CacheState where
  heap : List GenerateResponse
  memory : List (Nat × Nat)
deriving DecidableEq, Repr

/-- `ShapeCache.get`, memory tier: normalize, hash, and return the stored
reference if the key is present. -/
def cacheGet (st : CacheState) (text : List Char) : Option Nat :=
  (st.memory.find? (fun kv => kv.1 = hash_key (normalize_key text))).map (·.2)

/-- `ShapeCache.set`, memory tier: store a reference to the response object
under the normalized-and-hashed key. -/
def cacheSet (st : CacheState) (text : List Char) (addr : Nat) : CacheState :=
  { st with memory :=
      (hash_key (normalize_key text), addr) ::
        st.memory.filter (fun kv => kv.1 ≠ hash_key (normalize_key text)) }

/-- The cache-hit branch of `_generate_traced`: `cache.get` returns the
stored object, and the orchestrator assigns `cached.cached = True` and
`cached.generation_time_ms = elapsed` on that object — attribute writes
through the shared reference — then returns it. -/
def stampHit (r : GenerateResponse) (elapsed : Nat) : GenerateResponse :=
  { r with cached := true, generation_time_ms := elapsed }

def cacheHitPath (st : CacheState) (text : List Char) (elapsed : Nat) :
    Option (GenerateResponse × CacheState) :=
  match cacheGet st text with
  | none => none
  | some addr =>
    match st.heap.get? addr with
    | none => none
    | some r =>
      some (stampHit r elapsed, { st with heap := st.heap.set addr (stampHit r elapsed) })

/-- A concrete stored response used for the C9 counterexample. -/
def cexResponse : GenerateResponse :=
  { positions := [(0, 0, 0)], part_ids := [0], part_names := ["body"],
    template_type := "quadruped", bounding_box := ((-1, -1, -1), (1, 1, 1)),
    cached := false, generation_time_ms := 500, pipeline := "partcrafter" }

/-- A cache state holding `cexResponse` under the key for `"horse"`. -/
def cexState : CacheState :=
  { heap := [cexResponse],
    memory := [(hash_key (normalize_key ['h', 'o', 'r', 's', 'e']), 0)] }

/-- C9 counterexample: the two hit-path stampings are not request-local —
they write through the shared reference and mutate the stored in-memory
entry.  After a hit on `"horse"` the entry stored in the cache is no longer
the originally stored object (its `cached`/`generation_time_ms` fields have
changed). -/
theorem cache_hit_mutates_stored_entry :
    (cacheHitPath cexState ['h', 'o', 'r', 's', 'e'] 3).map
        (fun pr => pr.2.heap.get? 0) ≠ some (some cexResponse) := by
  decide

/-- C9 (amended): on a memory-tier hit the returned result differs from the
originally stored entry exactly in the `cached` flag (stamped `true`) and
the elapsed-time field; every other field is unchanged.  However the two
stampings write through the shared object reference, so the stored
in-memory entry itself becomes the stamped object (they are not
request-local annotations). -/
theorem cache_hit_stamps_only_two_fields (st : CacheState) (text : List Char)
    (elapsed addr : Nat) (r0 : GenerateResponse)
    (hget : cacheGet st text = some addr)
    (hheap : st.heap.get? addr = some r0) :
    ∃ r1 st1, cacheHitPath st text elapsed = some (r1, st1) ∧
      r1.cached = true ∧ r1.generation_time_ms = elapsed ∧
      r1.positions = r0.positions ∧ r1.part_ids = r0.part_ids ∧
      r1.part_names = r0.part_names ∧ r1.template_type = r0.template_type ∧
      r1.bounding_box = r0.bounding_box ∧ r1.pipeline = r0.pipeline ∧
      st1.heap.get? addr = some r1 := by
  have hrun : cacheHitPath st text elapsed =
      some (stampHit r0 elapsed,
        { st with heap := st.heap.set addr (stampHit r0 elapsed) }) := by
    simp only [cacheHitPath, hget, hheap]
  refine ⟨_, _, hrun, rfl, rfl, rfl, rfl, rfl, rfl, rfl, rfl, ?_⟩
  have hlt : addr < st.heap.length := (List.get?_eq_some.mp hheap).1
  rw [List.get?_eq_getElem?, List.getElem?_set_self (by simpa using hlt)]

/-- C9 witness: the amended theorem applied to the concrete state
`cexState` and the text `"horse"`. -/
theorem cache_hit_stamps_witness :
    ∃ r1 st1,
      cacheHitPath cexState ['h', 'o', 'r', 's', 'e'] 3 = some (r1, st1) ∧
      r1.cached = true ∧ r1.generation_time_ms = 3 ∧
      r1.positions = cexResponse.positions ∧
      r1.part_ids = cexResponse.part_ids ∧
      r1.part_names = cexResponse.part_names ∧
      r1.template_type = cexResponse.template_type ∧
      r1.bounding_box = cexResponse.bounding_box ∧
      r1.pipeline = cexResponse.pipeline ∧
      st1.heap.get? 0 = some r1 :=
  cache_hit_stamps_only_two_fields cexState ['h', 'o', 'r', 's', 'e'] 3 0
    cexResponse (by decide) rfl

/-! ## Mask-to-face fusion (`app/pipeline/mask_to_faces.py`)

Pixel grids are flat row-major lists, exactly how numpy boolean indexing
linearizes a `(H, W)` array.  Part names are `List Char` so that the
symmetric-suffix string operations stay kernel-computable.  Floating-point
centroids are rationals; the single float comparison (`dist < 0.3`) is
carried out on squared distances (`dist² < 0.09`), which is equivalent. -/

/-- A 3-D face centroid. -/
abbrev Centroid : Type := ℚ × ℚ × ℚ

/-- One `(part_name, mask, face_id_map)` tuple of `all_mask_entries`. -/
structure MaskEntry where
  part : List Char
  mask : List Bool
  fidMap : List Int
deriving DecidableEq, Repr

/-- `int(mask.sum())`: the pixel area of a mask. -/
def MaskEntry.area (e : MaskEntry) : Nat := e.mask.count true

/-- `face_id_map[mask]` then `face_indices >= 0` then `np.unique`: the face
indices visible under a mask.  (`np.unique` sorts; here duplicates are
removed keeping first occurrences — the iteration order over one entry's
face ids is immaterial because every id receives the same part and area,
and the strict area guard makes a second occurrence a no-op.) -/
def MaskEntry.faceIds (e : MaskEntry) : List Int :=
  (((e.fidMap.zip e.mask).filterMap fun vb =>
    if vb.2 then some vb.1 else none).filter fun v => 0 ≤ v).dedup

/-- `all_mask_entries`: every mask of every view, in view order then dict
insertion order. -/
def collectEntries (views : List (List (List Char × List Bool) × List Int)) :
    List MaskEntry :=
  views.flatMap fun v => v.1.map fun pm => ⟨pm.1, pm.2, v.2⟩

/-- The first-appearance part-name list underlying `part_to_idx`. -/
def uniqueParts (entries : List MaskEntry) : List (List Char) :=
  entries.foldl (fun acc e => if e.part ∈ acc then acc else acc ++ [e.part]) []

/-- `part_to_idx[name]`: the first-appearance index of a part name. -/
def partToIdx (entries : List MaskEntry) (name : List Char) : Nat :=
  (uniqueParts entries).indexOf name

/-- Stable insertion into a list sorted by ascending area. -/
def insertByArea (e : MaskEntry) : List MaskEntry → List MaskEntry
  | [] => [e]
  | f :: fs => if f.area < e.area then f :: insertByArea e fs else e :: f :: fs

/-- `sorted(all_mask_entries, key=lambda e: e[3])`: Python's stable
ascending sort, realized as a stable insertion sort. -/
def sortByArea : List MaskEntry → List MaskEntry
  | [] => []
  | e :: es => insertByArea e (sortByArea es)

/-- The per-face assignment state: `face_labels` (−1 = unassigned) and
`face_mask_area` (`none` = `np.inf`). -/
structure FuseState where
  labels : List Int
  areas : List (Option Nat)
deriving Repr

/-- `area < face_mask_area[fidx]` with `none` playing `np.inf`. -/
def infLt (area : Nat) : Option Nat → Bool
  | none => true
  | some a => decide (area < a)

/-- The body of the assignment loop for a single face index:
`if fidx < num_faces and area < face_mask_area[fidx]` then write the part
index and record the area. -/
def applyFid (numFaces pidx area : Nat) (st : FuseState) (fid : Int) : FuseState :=
  if fid < (numFaces : Int) ∧ infLt area (st.areas[fid.toNat]?.getD none) then
    { labels := st.labels.set fid.toNat (pidx : Int),
      areas := st.areas.set fid.toNat (some area) }
  else st

/-- Processing one sorted mask entry: loop over its visible face indices. -/
def applyEntry (numFaces : Nat) (entries : List MaskEntry) (st : FuseState)
    (e : MaskEntry) : FuseState :=
  e.faceIds.foldl (applyFid numFaces (partToIdx entries e.part) e.area) st

/-- The full smallest-first assignment pass over the sorted entries. -/
def assignLabels (numFaces : Nat) (entries : List MaskEntry) : FuseState :=
  (sortByArea entries).foldl (applyEntry numFaces entries)
    ⟨List.replicate numFaces (-1), List.replicate numFaces none⟩

/-- `_SYMMETRIC_SUFFIXES`. -/
def symSuffixes : List (List Char × List Char) :=
  [(['_', 'l', 'e', 'f', 't', '_'], ['_', 'r', 'i', 'g', 'h', 't', '_']),
   (['l', 'e', 'f', 't', '_'], ['r', 'i', 'g', 'h', 't', '_']),
   (['_', 'l', 'e', 'f', 't'], ['_', 'r', 'i', 'g', 'h', 't'])]

/-- Python `str.replace`: replace non-overlapping occurrences left to
right (our patterns are never empty). -/
def replaceSub (pat rep : List Char) : List Char → List Char
  | [] => []
  | c :: cs =>
    if pat ≠ [] ∧ pat.isPrefixOf (c :: cs) then
      rep ++ replaceSub pat rep ((c :: cs).drop pat.length)
    else c :: replaceSub pat rep cs
termination_by s => s.length
decreasing_by
  · simp only [List.length_drop, List.length_cons]
    have : 0 < pat.length := List.length_pos.mpr (by tauto)
    omega
  · simp

/-- Python's `in` on strings: contiguous-substring containment. -/
def containsSub (pat : List Char) : List Char → Bool
  | [] => pat.isEmpty
  | c :: cs => pat.isPrefixOf (c :: cs) || containsSub pat cs

/-- `_find_symmetric_pair` inner loop over the suffix pairs. -/
def findSymAux (name : List Char) (allNames : List (List Char)) :
    List (List Char × List Char) → Option (List Char)
  | [] => none
  | (l, r) :: rest =>
    if containsSub l name then
      let pair := replaceSub l r name
      if pair ∈ allNames then some pair else findSymAux name allNames rest
    else if containsSub r name then
      let pair := replaceSub r l name
      if pair ∈ allNames then some pair else findSymAux name allNames rest
    else findSymAux name allNames rest

/-- `_find_symmetric_pair`. -/
def findSymmetricPair (name : List Char) (allNames : List (List Char)) :
    Option (List Char) :=
  findSymAux name allNames symSuffixes

/-- Squared Euclidean distance between centroids. -/
def sqDist (a b : Centroid) : ℚ :=
  (a.1 - b.1) ^ 2 + (a.2.1 - b.2.1) ^ 2 + (a.2.2 - b.2.2) ^ 2

/-- `KDTree.query`: index of (and squared distance to) the nearest point,
earliest index on ties. -/
def nearestIdx (q : Centroid) : List Centroid → Option (Nat × ℚ)
  | [] => none
  | p :: ps =>
    match nearestIdx q ps with
    | none => some (0, sqDist q p)
    | some (i, d) =>
      let d0 := sqDist q p
      if d0 ≤ d then some (0, d0) else some (i + 1, d)

/-- `_clone_via_reflection`: reflect the source part's centroids across
the X=0 plane and label the nearest still-unlabeled face of each, when the
(squared) distance is below the 0.3 threshold.  The KD-tree of unlabeled
faces is built once, from the labels at entry, exactly as in the source. -/
def cloneViaReflection (lab0 : List Int) (centroids : List Centroid)
    (srcIdx tgtIdx : Nat) : List Int :=
  let sourceFaces := (List.range lab0.length).filter
    fun i => lab0.getD i (-1) = (srcIdx : Int)
  if sourceFaces.isEmpty then lab0
  else
    let unlabeled := (List.range lab0.length).filter fun i => lab0.getD i 0 = -1
    if unlabeled.isEmpty then lab0
    else
      let unlabeledCts := unlabeled.map fun i => centroids.getD i (0, 0, 0)
      sourceFaces.foldl
        (fun lab i =>
          let c := centroids.getD i (0, 0, 0)
          let rc : Centroid := (-c.1, c.2.1, c.2.2)
          match nearestIdx rc unlabeledCts with
          | none => lab
          | some (nn, d2) =>
            if d2 < 9 / 100 then lab.set (unlabeled.getD nn 0) (tgtIdx : Int)
            else lab)
        lab0

/-- `_apply_symmetric_heuristic`: walk the template part names with a
`checked` set and clone between a symmetric pair when exactly one side has
labeled faces. -/
def applySymmetric (entries : List MaskEntry) (centroids : List Centroid)
    (partNames : List (List Char)) (lab0 : List Int) : List Int :=
  (partNames.foldl
    (fun (st : List Int × List (List Char)) name =>
      if name ∈ st.2 ∨ name ∉ uniqueParts entries then st
      else
        match findSymmetricPair name partNames with
        | none => st
        | some pair =>
          if pair ∉ uniqueParts entries then st
          else
            let checked := st.2 ++ [name, pair]
            let idxA := partToIdx entries name
            let idxB := partToIdx entries pair
            let countA := st.1.count ((idxA : Nat) : Int)
            let countB := st.1.count ((idxB : Nat) : Int)
            if 0 < countA ∧ countB = 0 then
              (cloneViaReflection st.1 centroids idxA idxB, checked)
            else if 0 < countB ∧ countA = 0 then
              (cloneViaReflection st.1 centroids idxB idxA, checked)
            else (st.1, checked))
    (lab0, [])).1

/-- The residual gap fill: unlabeled faces take the label of the nearest
labeled centroid; if nothing is labeled, every face becomes part 0. -/
def nnFill (centroids : List Centroid) (lab : List Int) : List Int :=
  let unlabeled := (List.range lab.length).filter fun i => lab.getD i 0 = -1
  let labeledIdx := (List.range lab.length).filter fun i => ¬lab.getD i 0 = -1
  if ¬unlabeled.isEmpty ∧ ¬labeledIdx.isEmpty then
    let labeledCts := labeledIdx.map fun i => centroids.getD i (0, 0, 0)
    let labeledIds := labeledIdx.map fun i => lab.getD i 0
    (List.range lab.length).map fun i =>
      if lab.getD i 0 = -1 then
        match nearestIdx (centroids.getD i (0, 0, 0)) labeledCts with
        | none => lab.getD i 0
        | some (nn, _) => labeledIds.getD nn 0
      else lab.getD i 0
  else if unlabeled.length = lab.length then List.replicate lab.length 0
  else lab

/-- `map_masks_to_faces`: collect mask entries, smallest-first assignment,
symmetric completion (when part names were given, and non-empty — Python's
`if part_names:`), then residual fill. -/
def map_masks_to_faces (views : List (List (List Char × List Bool) × List Int))
    (centroids : List Centroid) (partNames : List (List Char)) : List Int :=
  let numFaces := centroids.length
  let entries := collectEntries views
  if entries.isEmpty then List.replicate numFaces 0
  else
    let st := assignLabels numFaces entries
    let lab1 :=
      if partNames.isEmpty then st.labels
      else applySymmetric entries centroids partNames st.labels
    nnFill centroids lab1

/-! ### C2: completeness of the fused labels -/

/-- Labels are always the sentinel or a genuine part index. -/
def OkLabels (l : List Int) : Prop := ∀ x ∈ l, x = -1 ∨ 0 ≤ x

lemma okLabels_set {l : List Int} (h : OkLabels l) {v : Int}
    (hv : v = -1 ∨ 0 ≤ v) (i : Nat) : OkLabels (l.set i v) := by
  intro x hx
  rcases List.mem_or_eq_of_mem_set hx with hx | hx
  · exact h x hx
  · rw [hx]; exact hv

lemma okLabels_applyFid {numFaces pidx area : Nat} {st : FuseState}
    (h : OkLabels st.labels) (fid : Int) :
    OkLabels (applyFid numFaces pidx area st fid).labels := by
  unfold applyFid
  split
  · exact okLabels_set h (Or.inr (by positivity)) _
  · exact h

lemma okLabels_applyEntry {numFaces : Nat} {entries : List MaskEntry}
    {st : FuseState} (h : OkLabels st.labels) (e : MaskEntry) :
    OkLabels (applyEntry numFaces entries st e).labels := by
  unfold applyEntry
  generalize e.faceIds = ids
  induction ids generalizing st with
  | nil => exact h
  | cons i is ih => exact ih (okLabels_applyFid h i)

lemma okLabels_foldEntries {numFaces : Nat} {entries : List MaskEntry}
    (es : List MaskEntry) {st : FuseState} (h : OkLabels st.labels) :
    OkLabels (es.foldl (applyEntry numFaces entries) st).labels := by
  induction es generalizing st with
  | nil => exact h
  | cons e es ih => exact ih (okLabels_applyEntry h e)

lemma okLabels_assignLabels (numFaces : Nat) (entries : List MaskEntry) :
    OkLabels (assignLabels numFaces entries).labels := by
  apply okLabels_foldEntries
  intro x hx
  exact Or.inl (List.eq_of_mem_replicate hx)

/-- Folding any step that preserves label sanity preserves it. -/
lemma okLabels_foldl {α : Type} (f : List Int → α → List Int)
    (hf : ∀ lab a, OkLabels lab → OkLabels (f lab a)) :
    ∀ (l : List α) (lab : List Int), OkLabels lab → OkLabels (l.foldl f lab) := by
  intro l
  induction l with
  | nil => intro lab h; exact h
  | cons a l ih => intro lab h; exact ih _ (hf lab a h)

lemma okLabels_foldl_fst {α β : Type} (f : List Int × β → α → List Int × β)
    (hf : ∀ st a, OkLabels st.1 → OkLabels (f st a).1) :
    ∀ (l : List α) (st : List Int × β), OkLabels st.1 → OkLabels (l.foldl f st).1 := by
  intro l
  induction l with
  | nil => intro st h; exact h
  | cons a l ih => intro st h; exact ih _ (hf st a h)

lemma okLabels_clone {lab0 : List Int} (h : OkLabels lab0)
    (centroids : List Centroid) (srcIdx tgtIdx : Nat) :
    OkLabels (cloneViaReflection lab0 centroids srcIdx tgtIdx) := by
  unfold cloneViaReflection
  dsimp only
  split
  · exact h
  · split
    · exact h
    · apply okLabels_foldl _ _ _ _ h
      intro lab i hl
      dsimp only
      split
      · exact hl
      · split
        · exact okLabels_set hl (Or.inr (by positivity)) _
        · exact hl

lemma okLabels_applySymmetric {lab0 : List Int} (h : OkLabels lab0)
    (entries : List MaskEntry) (centroids : List Centroid)
    (partNames : List (List Char)) :
    OkLabels (applySymmetric entries centroids partNames lab0) := by
  unfold applySymmetric
  apply okLabels_foldl_fst _ _ _ _ h
  intro st name hst
  split
  · exact hst
  · split
    · exact hst
    · split
      · exact hst
      · dsimp only
        split
        · exact okLabels_clone hst _ _ _
        · split
          · exact okLabels_clone hst _ _ _
          · exact hst

/-- A generic foldl invariant-preservation principle. -/
lemma foldl_invariant {α β : Type} (P : β → Prop) (f : β → α → β)
    (hf : ∀ b a, P b → P (f b a)) :
    ∀ (l : List α) (b : β), P b → P (l.foldl f b) := by
  intro l
  induction l with
  | nil => intro b h; exact h
  | cons a l ih => intro b h; exact ih _ (hf b a h)

lemma nearestIdx_isSome {q : Centroid} {pts : List Centroid} (h : pts ≠ []) :
    ∃ nn d, nearestIdx q pts = some (nn, d) := by
  cases pts with
  | nil => cases h rfl
  | cons p ps =>
    show ∃ nn d, (match nearestIdx q ps with
      | none => some (0, sqDist q p)
      | some (i, d) =>
        let d0 := sqDist q p
        if d0 ≤ d then some (0, d0) else some (i + 1, d)) = some (nn, d)
    cases nearestIdx q ps with
    | none => exact ⟨0, sqDist q p, rfl⟩
    | some v =>
      obtain ⟨i, d⟩ := v
      dsimp only
      split
      · exact ⟨0, sqDist q p, rfl⟩
      · exact ⟨i + 1, d, rfl⟩

lemma getD_mem_of_lt {l : List Int} {i : Nat} (h : i < l.length) (d : Int) :
    l.getD i d ∈ l := by
  rw [List.getD_eq_getElem?_getD, List.getElem?_eq_getElem h]
  exact List.getElem_mem h

/-- After the residual fill, every label is a genuine part index. -/
lemma nnFill_nonneg {lab : List Int} (h : OkLabels lab)
    (centroids : List Centroid) : ∀ x ∈ nnFill centroids lab, 0 ≤ x := by
  unfold nnFill
  dsimp only
  split
  · next hcond =>
    intro x hx
    rw [List.mem_map] at hx
    obtain ⟨i, hi, hx⟩ := hx
    rw [List.mem_range] at hi
    rw [← hx]
    split
    · next hunl =>
      have hne : ((List.filter (fun i => decide ¬lab.getD i 0 = -1)
          (List.range lab.length)).map fun i => centroids.getD i (0, 0, 0)) ≠ [] := by
        intro hempty
        rw [List.map_eq_nil_iff] at hempty
        exact hcond.2 (by rw [hempty]; rfl)
      obtain ⟨nn, d2, hnn⟩ :=
        nearestIdx_isSome (q := centroids.getD i (0, 0, 0)) hne
      rw [hnn]
      dsimp only
      cases hv : (List.map (fun i => lab.getD i 0)
          (List.filter (fun i => decide ¬lab.getD i 0 = -1)
            (List.range lab.length)))[nn]? with
      | none => rw [List.getD_eq_getElem?_getD, hv]; exact le_refl 0
      | some w =>
        rw [List.getD_eq_getElem?_getD, hv]
        have hw : w ∈ (List.filter (fun i => decide ¬lab.getD i 0 = -1)
            (List.range lab.length)).map fun i => lab.getD i 0 :=
          List.getElem?_mem hv
        rw [List.mem_map] at hw
        obtain ⟨j, hj, hw⟩ := hw
        rw [List.mem_filter, List.mem_range] at hj
        have hjv : lab.getD j 0 ∈ lab := getD_mem_of_lt hj.1 0
        rcases h _ hjv with hneg | hpos
        · exact absurd hneg (by simpa using hj.2)
        · rw [← hw]; exact hpos
    · next hunl =>
      have hv : lab.getD i 0 ∈ lab := getD_mem_of_lt hi 0
      rcases h _ hv with hneg | hpos
      · exact absurd hneg hunl
      · exact hpos
  · split
    · intro x hx
      rw [List.eq_of_mem_replicate hx]
    · next hcond hlen =>
      intro x hx
      rcases h x hx with hneg | hpos
      · exfalso
        obtain ⟨i, hilt, hieq⟩ := List.mem_iff_getElem.mp hx
        have hiu : i ∈ (List.range lab.length).filter
            fun i => decide (lab.getD i 0 = -1) := by
          rw [List.mem_filter, List.mem_range]
          refine ⟨hilt, by simp [List.getD_eq_getElem?_getD,
            List.getElem?_eq_getElem hilt, hieq, hneg]⟩
        have hune : ((List.range lab.length).filter
            fun i => decide (lab.getD i 0 = -1)) ≠ [] := by
          intro hcon; rw [hcon] at hiu; cases hiu
        have hlab : ((List.range lab.length).filter
            fun i => !decide (lab.getD i 0 = -1)) = [] := by
          by_contra hcon
          exact hcond ⟨by simpa using hune, by simpa using hcon⟩
        have hall : ∀ j ∈ List.range lab.length, lab.getD j 0 = -1 := by
          intro j hj
          have := List.filter_eq_nil_iff.mp hlab j hj
          simpa using this
        have : ((List.range lab.length).filter
            fun i => decide (lab.getD i 0 = -1)) = List.range lab.length :=
          List.filter_eq_self.mpr fun j hj => by simpa using hall j hj
        rw [this, List.length_range] at hlen
        exact hlen rfl
      · exact hpos

lemma applyFid_length {numFaces pidx area : Nat} (st : FuseState) (fid : Int) :
    (applyFid numFaces pidx area st fid).labels.length = st.labels.length := by
  unfold applyFid
  split <;> simp

lemma applyEntry_length {numFaces : Nat} {entries : List MaskEntry}
    (st : FuseState) (e : MaskEntry) :
    (applyEntry numFaces entries st e).labels.length = st.labels.length := by
  unfold applyEntry
  generalize e.faceIds = ids
  induction ids generalizing st with
  | nil => rfl
  | cons i is ih =>
    rw [List.foldl_cons, ih, applyFid_length]

lemma assignLabels_length (numFaces : Nat) (entries : List MaskEntry) :
    (assignLabels numFaces entries).labels.length = numFaces := by
  unfold assignLabels
  have := foldl_invariant (fun st : FuseState => st.labels.length = numFaces)
    (applyEntry numFaces entries)
    (fun st e h => by show _ = _; rw [applyEntry_length]; exact h)
    (sortByArea entries)
  exact this _ (by simp)

lemma clone_length (lab0 : List Int) (centroids : List Centroid)
    (srcIdx tgtIdx : Nat) :
    (cloneViaReflection lab0 centroids srcIdx tgtIdx).length = lab0.length := by
  unfold cloneViaReflection
  dsimp only
  split
  · rfl
  · split
    · rfl
    · apply foldl_invariant (fun l : List Int => l.length = lab0.length)
      · intro l i h
        dsimp only
        split
        · exact h
        · split
          · rw [List.length_set]; exact h
          · exact h
      · rfl

lemma applySymmetric_length (entries : List MaskEntry) (centroids : List Centroid)
    (partNames : List (List Char)) (lab0 : List Int) :
    (applySymmetric entries centroids partNames lab0).length = lab0.length := by
  unfold applySymmetric
  apply foldl_invariant
    (fun st : List Int × List (List Char) => st.1.length = lab0.length)
  · intro st name h
    split
    · exact h
    · split
      · exact h
      · split
        · exact h
        · dsimp only
          split
          · rw [clone_length]; exact h
          · split
            · rw [clone_length]; exact h
            · exact h
  · rfl

lemma nnFill_length (centroids : List Centroid) (lab : List Int) :
    (nnFill centroids lab).length = lab.length := by
  unfold nnFill
  dsimp only
  split
  · simp
  · split
    · simp
    · rfl

/-- C2: for every non-empty centroid array and any view list (and any part
names), `map_masks_to_faces` returns exactly one label per face, and no
label is the `-1` sentinel: every entry is a non-negative part index. -/
theorem map_masks_to_faces_complete
    (views : List (List (List Char × List Bool) × List Int))
    (centroids : List Centroid) (partNames : List (List Char))
    (_hne : centroids ≠ []) :
    (map_masks_to_faces views centroids partNames).length = centroids.length ∧
      ∀ l ∈ map_masks_to_faces views centroids partNames, l ≠ -1 ∧ 0 ≤ l := by
  unfold map_masks_to_faces
  dsimp only
  split
  · refine ⟨by simp, fun l hl => ?_⟩
    rw [List.eq_of_mem_replicate hl]
    exact ⟨by decide, le_refl 0⟩
  · set st := assignLabels centroids.length (collectEntries views) with hst
    set lab1 := if partNames.isEmpty then st.labels
      else applySymmetric (collectEntries views) centroids partNames st.labels
      with hlab1
    have hok : OkLabels lab1 := by
      rw [hlab1]
      split
      · exact okLabels_assignLabels _ _
      · exact okLabels_applySymmetric (okLabels_assignLabels _ _) _ _ _
    have hlen1 : lab1.length = centroids.length := by
      rw [hlab1]
      split
      · rw [hst, assignLabels_length]
      · rw [applySymmetric_length, hst, assignLabels_length]
    refine ⟨by rw [nnFill_length, hlen1], fun l hl => ?_⟩
    have := nnFill_nonneg hok centroids l hl
    exact ⟨by omega, this⟩

/-- C2 witness: the completeness theorem applied to a concrete scene —
the resulting labels for a 3-face mesh with two overlapping masks have one
entry per face and every entry non-negative. -/
theorem map_masks_to_faces_complete_witness :
    ((map_masks_to_faces
        [([([ 'b', 'i', 'g'], [true, true, true, false]),
           (['s', 'm', 'a', 'l', 'l'], [true, false, false, false])],
          [1, 1, 2, -1])]
        [(0, 0, 0), (1, 0, 0), (2, 0, 0)] []).length = 3 ∧
      ∀ l ∈ map_masks_to_faces
        [([([ 'b', 'i', 'g'], [true, true, true, false]),
           (['s', 'm', 'a', 'l', 'l'], [true, false, false, false])],
          [1, 1, 2, -1])]
        [(0, 0, 0), (1, 0, 0), (2, 0, 0)] [], l ≠ -1 ∧ 0 ≤ l) :=
  map_masks_to_faces_complete _ _ _ (by decide)

/-! ### C3: the smallest-area mask wins every conflict -/

/-- Whether a mask entry claims face `f` (a visible, in-range face id). -/
def claimsFace (e : MaskEntry) (f : Int) : Bool := decide (f ∈ e.faceIds)

lemma faceIds_nonneg {e : MaskEntry} {fid : Int} (h : fid ∈ e.faceIds) :
    0 ≤ fid := by
  unfold MaskEntry.faceIds at h
  rw [List.mem_dedup, List.mem_filter] at h
  simpa using h.2

lemma insertByArea_perm (e : MaskEntry) (l : List MaskEntry) :
    (insertByArea e l).Perm (e :: l) := by
  induction l with
  | nil => rfl
  | cons f fs ih =>
    unfold insertByArea
    split
    · exact (ih.cons f).trans (List.Perm.swap e f fs)
    · rfl

lemma sortByArea_perm (l : List MaskEntry) : (sortByArea l).Perm l := by
  induction l with
  | nil => rfl
  | cons e es ih => exact (insertByArea_perm e (sortByArea es)).trans (ih.cons e)

lemma mem_insertByArea {x e : MaskEntry} {l : List MaskEntry} :
    x ∈ insertByArea e l ↔ x = e ∨ x ∈ l := by
  rw [(insertByArea_perm e l).mem_iff, List.mem_cons]

lemma insertByArea_sorted {e : MaskEntry} {l : List MaskEntry}
    (h : List.Pairwise (fun a b => a.area ≤ b.area) l) :
    List.Pairwise (fun a b => a.area ≤ b.area) (insertByArea e l) := by
  induction l with
  | nil => simp [insertByArea]
  | cons f fs ih =>
    unfold insertByArea
    split
    · next hlt =>
      rw [List.pairwise_cons]
      refine ⟨fun x hx => ?_, ih h.tail⟩
      rcases mem_insertByArea.mp hx with hx | hx
      · rw [hx]; omega
      · exact List.rel_of_pairwise_cons h hx
    · next hge =>
      rw [List.pairwise_cons]
      exact ⟨fun x hx => by
        rcases List.mem_cons.mp hx with hx | hx
        · rw [hx]; omega
        · have := List.rel_of_pairwise_cons h hx
          omega, h⟩

lemma sortByArea_sorted (l : List MaskEntry) :
    List.Pairwise (fun a b => a.area ≤ b.area) (sortByArea l) := by
  induction l with
  | nil => exact List.Pairwise.nil
  | cons e es ih => exact insertByArea_sorted ih

lemma find?_eq_head_filter {α : Type} (p : α → Bool) (l : List α) :
    l.find? p = (l.filter p).head? := by
  induction l with
  | nil => rfl
  | cons a l ih =>
    cases hp : p a with
    | true => simp [List.find?_cons, List.filter_cons, hp]
    | false => simp only [List.find?_cons, List.filter_cons, hp]; exact ih

lemma perm_pair {α : Type} {l : List α} {a b : α} (h : l.Perm [a, b]) :
    l = [a, b] ∨ l = [b, a] := by
  have hlen : l.length = 2 := by rw [h.length_eq]; rfl
  obtain ⟨x, y, hl⟩ : ∃ x y, l = [x, y] := by
    cases l with
    | nil => cases hlen
    | cons x t =>
      cases t with
      | nil => cases hlen
      | cons y t' =>
        cases t' with
        | nil => exact ⟨x, y, rfl⟩
        | cons z t'' => simp at hlen
  subst hl
  have hx : x ∈ [a, b] := h.mem_iff.mp (by simp)
  rcases List.mem_cons.mp hx with hx | hx
  · subst hx
    left
    have : ([y] : List α).Perm [b] := h.cons_inv
    rw [List.singleton_perm_singleton.mp this]
  · have hx : x = b := by simpa using hx
    subst hx
    right
    have hswap : ([a, x] : List α).Perm [x, a] := List.Perm.swap x a []
    have : ([y] : List α).Perm [a] := List.Perm.cons_inv (h.trans hswap)
    rw [List.singleton_perm_singleton.mp this]

lemma applyFid_at_ne {n p a : Nat} (st : FuseState) {fid f : Int}
    (hne : fid.toNat ≠ f.toNat) :
    (applyFid n p a st fid).labels[f.toNat]? = st.labels[f.toNat]? ∧
      (applyFid n p a st fid).areas[f.toNat]? = st.areas[f.toNat]? := by
  unfold applyFid
  split
  · exact ⟨List.getElem?_set_ne hne, List.getElem?_set_ne hne⟩
  · exact ⟨rfl, rfl⟩

lemma applyFid_areas_length {numFaces pidx area : Nat} (st : FuseState) (fid : Int) :
    (applyFid numFaces pidx area st fid).areas.length = st.areas.length := by
  unfold applyFid
  split <;> simp

lemma foldFid_frame {n pidx area : Nat} {f : Int} :
    ∀ (ids : List Int) (st : FuseState), (∀ i ∈ ids, i.toNat ≠ f.toNat) →
    ((ids.foldl (applyFid n pidx area) st).labels[f.toNat]? = st.labels[f.toNat]? ∧
     (ids.foldl (applyFid n pidx area) st).areas[f.toNat]? = st.areas[f.toNat]?) := by
  intro ids
  induction ids with
  | nil => exact fun st _ => ⟨rfl, rfl⟩
  | cons i is ih =>
    intro st hne
    have hstep := applyFid_at_ne (n := n) (p := pidx) (a := area) st
      (hne i (by simp))
    have hrec := ih (applyFid n pidx area st i) fun j hj => hne j (by simp [hj])
    exact ⟨hrec.1.trans hstep.1, hrec.2.trans hstep.2⟩

lemma foldFid_skip {n p b : Nat} {f : Int} {a : Nat} (hskip : ¬b < a) :
    ∀ (ids : List Int) (st : FuseState),
    st.areas[f.toNat]? = some (some a) →
    ((ids.foldl (applyFid n p b) st).labels[f.toNat]? = st.labels[f.toNat]? ∧
     (ids.foldl (applyFid n p b) st).areas[f.toNat]? = st.areas[f.toNat]?) := by
  intro ids
  induction ids with
  | nil => exact fun st _ => ⟨rfl, rfl⟩
  | cons i is ih =>
    intro st hst
    by_cases hif : i.toNat = f.toNat
    · have hkeep : applyFid n p b st i = st := by
        unfold applyFid
        rw [if_neg]
        intro hcon
        have := hcon.2
        rw [hif, hst] at this
        simp only [Option.getD_some, infLt] at this
        exact absurd (by simpa using this) hskip
      rw [List.foldl_cons, hkeep]
      exact ih st hst
    · have hstep := applyFid_at_ne (n := n) (p := p) (a := b) st hif
      have hrec := ih (applyFid n p b st i) (hstep.2.trans hst)
      exact ⟨hrec.1.trans hstep.1, hrec.2.trans hstep.2⟩

lemma foldFid_assign {n pidx area : Nat} {f : Int} (hf0 : 0 ≤ f)
    (hfn : f.toNat < n) :
    ∀ (ids : List Int) (st : FuseState), (∀ i ∈ ids, 0 ≤ i) →
    st.areas[f.toNat]? = some none →
    st.labels.length = n → st.areas.length = n → f ∈ ids →
    ((ids.foldl (applyFid n pidx area) st).labels[f.toNat]? = some (pidx : Int) ∧
     (ids.foldl (applyFid n pidx area) st).areas[f.toNat]? = some (some area)) := by
  intro ids
  induction ids with
  | nil => intro st _ _ _ _ hmem; cases hmem
  | cons i is ih =>
    intro st hpos harea hll hal hmem
    by_cases hif : i = f
    · subst hif
      have hguard : applyFid n pidx area st i =
          { labels := st.labels.set i.toNat (pidx : Int),
            areas := st.areas.set i.toNat (some area) } := by
        unfold applyFid
        rw [if_pos]
        constructor
        · omega
        · rw [harea]; rfl
      rw [List.foldl_cons, hguard]
      have hset : (FuseState.mk (st.labels.set i.toNat (pidx : Int))
          (st.areas.set i.toNat (some area))).areas[i.toNat]? = some (some area) :=
        List.getElem?_set_self (by simpa using hal ▸ hfn)
      have hrest := foldFid_skip (n := n) (p := pidx) (b := area) (f := i)
        (a := area) (by omega) is
        (FuseState.mk (st.labels.set i.toNat (pidx : Int))
          (st.areas.set i.toNat (some area))) hset
      refine ⟨hrest.1.trans ?_, hrest.2.trans hset⟩
      exact List.getElem?_set_self (by simpa using hll ▸ hfn)
    · have hine : i.toNat ≠ f.toNat := by
        have h0i := hpos i (by simp)
        omega
      have hstep := applyFid_at_ne (n := n) (p := pidx) (a := area) st hine
      exact ih (applyFid n pidx area st i) (fun j hj => hpos j (by simp [hj]))
        (hstep.2.trans harea)
        (by rw [applyFid_length]; exact hll)
        (by rw [applyFid_areas_length]; exact hal)
        (by rcases List.mem_cons.mp hmem with hc | hc
            · exact absurd hc (fun hcc => hif hcc.symm)
            · exact hc)

lemma applyEntry_frame {n : Nat} {E : List MaskEntry} {f : Int}
    (st : FuseState) {e : MaskEntry} (hf0 : 0 ≤ f)
    (hc : claimsFace e f = false) :
    (applyEntry n E st e).labels[f.toNat]? = st.labels[f.toNat]? ∧
      (applyEntry n E st e).areas[f.toNat]? = st.areas[f.toNat]? := by
  apply foldFid_frame
  intro i hi
  have hi0 := faceIds_nonneg hi
  have : i ≠ f := by
    intro hcon
    rw [claimsFace, decide_eq_false_iff_not] at hc
    exact hc (hcon ▸ hi)
  omega

lemma applyEntry_skip {n : Nat} {E : List MaskEntry} {f : Int} {a : Nat}
    (st : FuseState) {e : MaskEntry} (hskip : ¬e.area < a)
    (harea : st.areas[f.toNat]? = some (some a)) :
    (applyEntry n E st e).labels[f.toNat]? = st.labels[f.toNat]? ∧
      (applyEntry n E st e).areas[f.toNat]? = st.areas[f.toNat]? :=
  foldFid_skip hskip e.faceIds st harea

lemma applyEntry_claims {n : Nat} {E : List MaskEntry} {f : Int}
    (st : FuseState) {e : MaskEntry} (hf0 : 0 ≤ f) (hfn : f.toNat < n)
    (hc : claimsFace e f = true)
    (harea : st.areas[f.toNat]? = some none)
    (hll : st.labels.length = n) (hal : st.areas.length = n) :
    (applyEntry n E st e).labels[f.toNat]? =
        some ((partToIdx E e.part : Nat) : Int) ∧
      (applyEntry n E st e).areas[f.toNat]? = some (some e.area) := by
  apply foldFid_assign hf0 hfn e.faceIds st
    (fun i hi => faceIds_nonneg hi) harea hll hal
  rw [claimsFace, decide_eq_true_iff] at hc
  exact hc

lemma applyEntry_labels_length' {n : Nat} {entries : List MaskEntry}
    (st : FuseState) (e : MaskEntry) :
    (applyEntry n entries st e).labels.length = st.labels.length :=
  applyEntry_length st e

lemma applyEntry_areas_length {n : Nat} {entries : List MaskEntry}
    (st : FuseState) (e : MaskEntry) :
    (applyEntry n entries st e).areas.length = st.areas.length := by
  unfold applyEntry
  generalize e.faceIds = ids
  induction ids generalizing st with
  | nil => rfl
  | cons i is ih => rw [List.foldl_cons, ih, applyFid_areas_length]

lemma foldEntries_skip {n : Nat} {E : List MaskEntry} {f : Int} {a : Nat} :
    ∀ (es : List MaskEntry) (st : FuseState), (∀ e ∈ es, a ≤ e.area) →
    st.areas[f.toNat]? = some (some a) →
    ((es.foldl (applyEntry n E) st).labels[f.toNat]? = st.labels[f.toNat]? ∧
     (es.foldl (applyEntry n E) st).areas[f.toNat]? = st.areas[f.toNat]?) := by
  intro es
  induction es with
  | nil => exact fun st _ _ => ⟨rfl, rfl⟩
  | cons e es ih =>
    intro st hge harea
    have hstep := applyEntry_skip (n := n) (E := E) st
      (e := e) (by have := hge e (by simp); omega) harea
    have hrec := ih (applyEntry n E st e)
      (fun e' he' => hge e' (by simp [he'])) (hstep.2.trans harea)
    exact ⟨hrec.1.trans hstep.1, hrec.2.trans hstep.2⟩

/-- The heart of C3: after folding an area-sorted entry list, the label at
face `f` is the part index of the first entry in the list claiming `f`. -/
lemma foldEntries_char {n : Nat} {entries : List MaskEntry} {f : Int}
    (hf0 : 0 ≤ f) (hfn : f.toNat < n) :
    ∀ (es : List MaskEntry) (st : FuseState),
    List.Pairwise (fun a b => a.area ≤ b.area) es →
    st.labels.length = n → st.areas.length = n →
    st.areas[f.toNat]? = some none →
    (es.foldl (applyEntry n entries) st).labels[f.toNat]? =
      match es.find? (fun e => claimsFace e f) with
      | some e => some ((partToIdx entries e.part : Nat) : Int)
      | none => st.labels[f.toNat]? := by
  intro es
  induction es with
  | nil => intro st _ _ _ _; rfl
  | cons e es ih =>
    intro st hsort hll hal harea
    cases hc : claimsFace e f with
    | true =>
      rw [List.foldl_cons, List.find?_cons, hc]
      have hstep := applyEntry_claims (E := entries) st hf0 hfn hc harea hll hal
      have hrest := foldEntries_skip (n := n) (E := entries) (a := e.area) es
        (applyEntry n entries st e)
        (fun e' he' => List.rel_of_pairwise_cons hsort he') hstep.2
      exact hrest.1.trans hstep.1
    | false =>
      rw [List.foldl_cons, List.find?_cons, hc]
      have hstep := applyEntry_frame (n := n) (E := entries) st hf0 hc
      have := ih (applyEntry n entries st e) hsort.tail
        (by rw [applyEntry_labels_length']; exact hll)
        (by rw [applyEntry_areas_length]; exact hal)
        (hstep.2.trans harea)
      rw [this]
      cases es.find? (fun e => claimsFace e f) with
      | none => exact hstep.1
      | some e' => rfl

lemma assignLabels_at {n : Nat} {entries : List MaskEntry} {f : Int}
    {e1 : MaskEntry} (hf0 : 0 ≤ f) (hfn : f.toNat < n)
    (hfind : (sortByArea entries).find? (fun e => claimsFace e f) = some e1) :
    (assignLabels n entries).labels[f.toNat]? =
      some ((partToIdx entries e1.part : Nat) : Int) := by
  unfold assignLabels
  rw [foldEntries_char hf0 hfn (sortByArea entries) _ (sortByArea_sorted entries)
    (by simp) (by simp) (by rw [List.getElem?_replicate, if_pos hfn]), hfind]

lemma find_two_claimers {entries : List MaskEntry} {f : Int}
    {e1 e2 : MaskEntry}
    (hfil : entries.filter (fun e => claimsFace e f) = [e1, e2] ∨
            entries.filter (fun e => claimsFace e f) = [e2, e1])
    (harea : e1.area < e2.area) :
    (sortByArea entries).find? (fun e => claimsFace e f) = some e1 := by
  rw [find?_eq_head_filter]
  have hperm : ((sortByArea entries).filter (fun e => claimsFace e f)).Perm
      (entries.filter (fun e => claimsFace e f)) :=
    (sortByArea_perm entries).filter _
  have hperm2 : ((sortByArea entries).filter (fun e => claimsFace e f)).Perm
      [e1, e2] := by
    rcases hfil with hfil | hfil
    · rw [hfil] at hperm; exact hperm
    · rw [hfil] at hperm
      exact hperm.trans (List.Perm.swap e1 e2 [])
  have hsorted : List.Pairwise (fun a b => a.area ≤ b.area)
      ((sortByArea entries).filter (fun e => claimsFace e f)) :=
    List.Pairwise.sublist (List.filter_sublist _) (sortByArea_sorted entries)
  rcases perm_pair hperm2 with hcase | hcase
  · rw [hcase]; rfl
  · exfalso
    rw [hcase, List.pairwise_cons] at hsorted
    have := hsorted.1 e1 (by simp)
    omega

lemma nearestIdx_lt {q : Centroid} {pts : List Centroid} {nn : Nat} {d : ℚ}
    (h : nearestIdx q pts = some (nn, d)) : nn < pts.length := by
  induction pts generalizing nn d with
  | nil => cases h
  | cons p ps ih =>
    rw [show nearestIdx q (p :: ps) = (match nearestIdx q ps with
      | none => some (0, sqDist q p)
      | some (i, d) =>
        let d0 := sqDist q p
        if d0 ≤ d then some (0, d0) else some (i + 1, d)) from rfl] at h
    cases hres : nearestIdx q ps with
    | none =>
      rw [hres] at h
      have : nn = 0 := by
        have := h
        simp only [Option.some.injEq, Prod.mk.injEq] at this
        exact this.1.symm
      rw [this]
      simp
    | some v =>
      obtain ⟨i, di⟩ := v
      rw [hres] at h
      dsimp only at h
      split at h
      · have : nn = 0 := by
          simp only [Option.some.injEq, Prod.mk.injEq] at h
          exact h.1.symm
        rw [this]; simp
      · have hi : i < ps.length := ih hres
        have : nn = i + 1 := by
          simp only [Option.some.injEq, Prod.mk.injEq] at h
          exact h.1.symm
        rw [this]
        simpa using hi

lemma clone_frame {lab0 : List Int} {centroids : List Centroid}
    {s t k : Nat} {v : Int} (hk : lab0[k]? = some v) (hv : v ≠ -1) :
    (cloneViaReflection lab0 centroids s t)[k]? = some v := by
  unfold cloneViaReflection
  dsimp only
  split
  · exact hk
  · split
    · exact hk
    · have hknotu : k ∉ (List.range lab0.length).filter
          fun i => decide (lab0.getD i 0 = -1) := by
        intro hcon
        rw [List.mem_filter] at hcon
        have : lab0.getD k 0 = -1 := by simpa using hcon.2
        rw [List.getD_eq_getElem?_getD, hk] at this
        exact hv (by simpa using this)
      apply foldl_invariant (fun l : List Int => l[k]? = some v)
      · intro l i h
        dsimp only
        split
        · exact h
        · next nn d2 heq =>
          split
          · have hnn : nn < ((List.range lab0.length).filter
                fun i => decide (lab0.getD i 0 = -1)).length := by
              have := nearestIdx_lt heq
              simpa using this
            have hmem : ((List.range lab0.length).filter
                fun i => decide (lab0.getD i 0 = -1)).getD nn 0 ∈
                (List.range lab0.length).filter
                  fun i => decide (lab0.getD i 0 = -1) := by
              rw [List.getD_eq_getElem?_getD, List.getElem?_eq_getElem hnn]
              exact List.getElem_mem hnn
            have : ((List.range lab0.length).filter
                fun i => decide (lab0.getD i 0 = -1)).getD nn 0 ≠ k :=
              fun hcon => hknotu (hcon ▸ hmem)
            rw [List.getElem?_set_ne this]
            exact h
          · exact h
      · exact hk

lemma applySymmetric_frame {entries : List MaskEntry}
    {centroids : List Centroid} {partNames : List (List Char)}
    {lab0 : List Int} {k : Nat} {v : Int}
    (hk : lab0[k]? = some v) (hv : v ≠ -1) :
    (applySymmetric entries centroids partNames lab0)[k]? = some v := by
  unfold applySymmetric
  apply foldl_invariant
    (fun st : List Int × List (List Char) => st.1[k]? = some v)
  · intro st name h
    split
    · exact h
    · split
      · exact h
      · split
        · exact h
        · dsimp only
          split
          · exact clone_frame h hv
          · split
            · exact clone_frame h hv
            · exact h
  · exact hk

lemma nnFill_frame {centroids : List Centroid} {lab : List Int} {k : Nat}
    {v : Int} (hk : lab[k]? = some v) (hv : v ≠ -1) :
    (nnFill centroids lab)[k]? = some v := by
  have hklt : k < lab.length := by
    by_contra hcon
    rw [List.getElem?_eq_none (by omega)] at hk
    cases hk
  have hgd : lab.getD k 0 = v := by
    rw [List.getD_eq_getElem?_getD, hk]; rfl
  unfold nnFill
  dsimp only
  split
  · rw [List.getElem?_map, List.getElem?_range hklt]
    simp only [Option.map_some']
    rw [if_neg (by rw [hgd]; exact hv), hgd]
  · split
    · next hcond hlen =>
      exfalso
      have hsub : ((List.range lab.length).filter
          fun i => decide (lab.getD i 0 = -1)).Sublist (List.range lab.length) :=
        List.filter_sublist _
      have heq := hsub.eq_of_length (by rw [hlen, List.length_range])
      have hkmem : k ∈ (List.range lab.length).filter
          fun i => decide (lab.getD i 0 = -1) := by
        rw [heq]; exact List.mem_range.mpr hklt
      rw [List.mem_filter] at hkmem
      exact hv (by rw [← hgd]; simpa using hkmem.2)
    · exact hk

lemma part_mem_uniqueParts {entries : List MaskEntry} {e : MaskEntry}
    (he : e ∈ entries) : e.part ∈ uniqueParts entries := by
  unfold uniqueParts
  suffices hgen : ∀ (l : List MaskEntry) (acc : List (List Char)),
      (e.part ∈ acc ∨ ∃ e' ∈ l, e'.part = e.part) →
      e.part ∈ l.foldl (fun acc e =>
        if e.part ∈ acc then acc else acc ++ [e.part]) acc by
    exact hgen entries [] (Or.inr ⟨e, he, rfl⟩)
  intro l
  induction l with
  | nil =>
    intro acc h
    rcases h with h | ⟨e', he', _⟩
    · exact h
    · cases he'
  | cons a l ih =>
    intro acc h
    rw [List.foldl_cons]
    apply ih
    rcases h with h | ⟨e', he', hpe⟩
    · left
      split
      · exact h
      · exact List.mem_append_left _ h
    · rcases List.mem_cons.mp he' with hc | hc
      · left
        rw [← hpe, hc]
        split
        · next hin => exact hin
        · exact List.mem_append_right _ (by simp)
      · exact Or.inr ⟨e', hc, hpe⟩

lemma getElem?_indexOf_self {l : List (List Char)} {a : List Char} (h : a ∈ l) :
    l[l.indexOf a]? = some a := by
  induction l with
  | nil => cases h
  | cons b t ih =>
    by_cases hba : b = a
    · subst hba
      simp [List.indexOf_cons]
    · have hbeq : (b == a) = false := by
        simpa using hba
      have hmem : a ∈ t := by
        rcases List.mem_cons.mp h with hc | hc
        · exact absurd hc.symm hba
        · exact hc
      simp [List.indexOf_cons, hbeq, ih hmem]

/-- C3: when exactly two mask entries (in either input order, from the same
view or different views) claim a face and their pixel areas differ, the
face's final label is the part index of the smaller-area mask, and that
label denotes the smaller mask's part name.  Because the hypothesis and the
conclusion depend only on the unordered pair of claimants, every ordering
of the input views and masks yields the same winning part name. -/
theorem smallest_mask_wins
    (views : List (List (List Char × List Bool) × List Int))
    (centroids : List Centroid) (partNames : List (List Char))
    (f : Int) (e1 e2 : MaskEntry)
    (hfil : (collectEntries views).filter (fun e => claimsFace e f) = [e1, e2] ∨
            (collectEntries views).filter (fun e => claimsFace e f) = [e2, e1])
    (harea : e1.area < e2.area)
    (hfn : f.toNat < centroids.length) :
    (map_masks_to_faces views centroids partNames)[f.toNat]? =
        some ((partToIdx (collectEntries views) e1.part : Nat) : Int) ∧
      (uniqueParts (collectEntries views))[partToIdx (collectEntries views)
        e1.part]? = some e1.part := by
  have he1fil : e1 ∈ (collectEntries views).filter (fun e => claimsFace e f) := by
    rcases hfil with h | h <;> rw [h] <;> simp
  rw [List.mem_filter] at he1fil
  have hf0 : 0 ≤ f := by
    have := he1fil.2
    rw [claimsFace, decide_eq_true_iff] at this
    exact faceIds_nonneg this
  have hentne : ¬(collectEntries views).isEmpty = true := by
    intro hcon
    rw [List.isEmpty_iff] at hcon
    rcases hfil with h | h <;> rw [hcon] at h <;> cases h
  have hfind := find_two_claimers hfil harea
  have hassign := assignLabels_at (n := centroids.length) hf0 hfn hfind
  have hpne : ((partToIdx (collectEntries views) e1.part : Nat) : Int) ≠ -1 := by
    omega
  constructor
  · unfold map_masks_to_faces
    dsimp only
    rw [if_neg hentne]
    have hsym : (if partNames.isEmpty then
        (assignLabels centroids.length (collectEntries views)).labels
        else applySymmetric (collectEntries views) centroids partNames
          (assignLabels centroids.length (collectEntries views)).labels)[f.toNat]? =
        some ((partToIdx (collectEntries views) e1.part : Nat) : Int) := by
      split
      · exact hassign
      · exact applySymmetric_frame hassign hpne
    exact nnFill_frame hsym hpne
  · exact getElem?_indexOf_self (part_mem_uniqueParts he1fil.1)

/-- C3 witness: in a concrete scene where masks `big` (area 3) and `small`
(area 1) both claim face 1, the face ends labeled with `small`'s part
index, which denotes `small`. -/
theorem smallest_mask_wins_witness :
    (map_masks_to_faces
        [([([ 'b', 'i', 'g'], [true, true, true, false]),
           (['s', 'm', 'a', 'l', 'l'], [true, false, false, false])],
          [1, 1, 2, -1])]
        [(0, 0, 0), (1, 0, 0), (2, 0, 0)] [])[(1 : Int).toNat]? =
        some ((partToIdx (collectEntries
          [([([ 'b', 'i', 'g'], [true, true, true, false]),
             (['s', 'm', 'a', 'l', 'l'], [true, false, false, false])],
            [1, 1, 2, -1])])
          ['s', 'm', 'a', 'l', 'l'] : Nat) : Int) ∧
      (uniqueParts (collectEntries
          [([([ 'b', 'i', 'g'], [true, true, true, false]),
             (['s', 'm', 'a', 'l', 'l'], [true, false, false, false])],
            [1, 1, 2, -1])]))[partToIdx (collectEntries
          [([([ 'b', 'i', 'g'], [true, true, true, false]),
             (['s', 'm', 'a', 'l', 'l'], [true, false, false, false])],
            [1, 1, 2, -1])]) ['s', 'm', 'a', 'l', 'l']]? =
        some ['s', 'm', 'a', 'l', 'l'] :=
  smallest_mask_wins _ _ _ 1
    ⟨['s', 'm', 'a', 'l', 'l'], [true, false, false, false], [1, 1, 2, -1]⟩
    ⟨['b', 'i', 'g'], [true, true, true, false], [1, 1, 2, -1]⟩
    (by right; decide) (by decide) (by decide)

/-! ## Settings (`app/config.py`) -/

/-- The `Settings` model exactly as declared in `config.py`. -/
structure Settings where
  cache_bucket : String
  model_cache_dir : String
  port : Nat
  skip_model_load : Bool
  enable_debug_routes : Bool
  max_request_text_length : Nat
  generation_timeout_seconds : Nat
  max_points : Nat
  log_level : String
  log_json : Bool
deriving Repr

/-- The field defaults from `config.py`. -/
def defaultSettings : Settings :=
  { cache_bucket := "lumen-shape-cache-dev",
    model_cache_dir := "/home/appuser/models", port := 8080,
    skip_model_load := false, enable_debug_routes := true,
    max_request_text_length := 200, generation_timeout_seconds := 15,
    max_points := 2048, log_level := "INFO", log_json := true }

/-- Python attribute lookup on `Settings` for numeric attributes, listing
exactly the numeric fields `config.py` declares (pydantic-settings ignores
undeclared fields, so reading any other name raises `AttributeError`).
In particular neither `generation_rate_limit_per_minute` nor
`vram_offload_threshold_gb` nor `fallback_timeout_seconds` is declared. -/
def Settings.getattrNum (s : Settings) : String → Option ℚ
  | "port" => some s.port
  | "max_request_text_length" => some s.max_request_text_length
  | "generation_timeout_seconds" => some s.generation_timeout_seconds
  | "max_points" => some s.max_points
  | _ => none

/-! ## Model registry surface (`app/models/registry.py`) -/

/-- The attributes defined on `ModelRegistry` in `registry.py` — note the
absence of `unload`, which `_generate_sync` nevertheless calls. -/
def registryMethods : List String :=
  ["load_primary", "register", "get", "get_or_load", "has", "loaded_names",
   "skip_loading", "_log_vram"]

/-- Python errors surfaced by the embedded pipeline. -/
inductive PyErr where
  | attributeError (name : String)
  | timeoutError
  | oom
  | modelError (msg : String)
deriving DecidableEq, Repr

/-- A Python method call through attribute lookup: raises `AttributeError`
when the class defines no such attribute. -/
def callRegistryMethod (name : String) : Except PyErr Unit :=
  if name ∈ registryMethods then Except.ok () else
    Except.error (PyErr.attributeError name)

/-! ## Rate governor (`_generate_traced` step 2) -/

/-- Modelled from the spec: the Rate Governor's in-window count
(`services/metrics.py` is not among the analyzed sources): the number of
generation timestamps inside the sliding 60-second window. -/
def recentGenerations (window : List ℚ) (now : ℚ) : Nat :=
  (window.filter fun t => now - t < 60).length

/-- Modelled from the spec: the Rate Governor's retry-after hint — the
time until the oldest in-window generation timestamp exits the window. -/
def oldestRetryAfter (window : List ℚ) (now : ℚ) : ℚ :=
  match (window.filter fun t => now - t < 60).min? with
  | none => 0
  | some t0 => 60 - (now - t0)

/-- The miss-path admission step of `_generate_traced` (pipeline.py lines
100–114): with metrics enabled, read
`settings.generation_rate_limit_per_minute`, compare the in-window count
against it, and reject with the retry-after hint when at or above it.
`Settings` declares no such field, so the very first attribute read raises
`AttributeError` (and `exceptions.py` declares no `GenerationRateLimitError`
for the rejection branch either). -/
def rateCheck (metricsEnabled : Bool) (window : List ℚ) (now : ℚ)
    (s : Settings) : Except PyErr Unit :=
  if metricsEnabled then
    match s.getattrNum "generation_rate_limit_per_minute" with
    | none => Except.error (PyErr.attributeError "generation_rate_limit_per_minute")
    | some limit =>
      if (recentGenerations window now : ℚ) ≥ limit then
        Except.error (PyErr.modelError "rate limited")
      else Except.ok ()
  else Except.ok ()

/-! ## The synchronous generation pipeline (`_generate_sync`) -/

/-- A triangle mesh as `_generate_sync` consumes it: its vertex count
(dummy parts have exactly one vertex) and its face centroids
(`triangles_center`). -/
structure Mesh where
  vertexCount : Nat
  faceCenters : List Centroid
deriving DecidableEq, Repr

/-- Modelled from the spec: `TemplateInfo` (the `template_matcher` module
is not among the analyzed sources): concept category, expected part count,
ordered part-name list. -/
structure TemplateInfo where
  template_type : String
  num_parts : Nat
  part_names : List (List Char)
deriving DecidableEq, Repr

/-- `real_count`: the number of non-dummy meshes (more than one vertex). -/
def countValid (meshes : List Mesh) : Nat :=
  (meshes.filter fun m => 1 < m.vertexCount).length

/-- The insufficiency threshold `max(template.num_parts * 0.5, 1)` that
`_generate_sync` compares `real_count` against — in the source this
comparison only emits a warning log and has no control-flow effect. -/
def primaryThreshold (numParts : Nat) : ℚ := max ((numParts : ℚ) * (1 / 2)) 1

/-- Modelled from the spec: Python's builtin string hash, deterministic
within one server process; seeds the safety net via `hash(text) % 2**32`. -/
def pyHash (t : List Char) : Nat :=
  t.foldl (fun h c => (h * 1000003 + c.toNat) % (2 ^ 61)) 7

/-- `hash(text) % (2**32)`. -/
def safetySeed (text : List Char) : Nat := pyHash text % (2 ^ 32)

/-- Modelled from the spec: the seeded numpy generator
(`np.random.default_rng(seed)`) — external library code whose single
relevant property is that the stream is a deterministic function of the
seed; represented by a concrete mixing function from (seed, draw index) to
a raw value. -/
def rngNat (seed k : Nat) : Nat :=
  (seed * 6364136223846793005 + k * 1442695040888963407 + 1013904223) % (2 ^ 64)

/-- Modelled from the spec: `normalize_positions` of the surface sampler
(`point_sampler.py` is not among the analyzed sources): translate the
centroid to the origin, scale so the maximum absolute coordinate is 1;
a single point (or an all-zero cloud) maps to the origin. -/
def normalize_positions (ps : List Centroid) : List Centroid :=
  if ps.isEmpty then ps
  else
    let n : ℚ := ps.length
    let cx := (ps.map fun p => p.1).sum / n
    let cy := (ps.map fun p => p.2.1).sum / n
    let cz := (ps.map fun p => p.2.2).sum / n
    let centered := ps.map fun p => (p.1 - cx, p.2.1 - cy, p.2.2 - cz)
    let m := (centered.map fun p => max |p.1| (max |p.2.1| |p.2.2|)).foldr max 0
    if m = 0 then centered else centered.map fun p => (p.1 / m, p.2.1 / m, p.2.2 / m)

/-- The procedural sphere of the safety net.  The trigonometric synthesis
(`sin`/`cos` over uniform draws) is represented by a deterministic function
of the seeded stream — the settled claims depend only on the positions
being a function of the seed and point budget alone. -/
def mockPositions (seed totalPoints : Nat) : List Centroid :=
  (List.range totalPoints).map fun i =>
    (((rngNat seed i % 1000 : Nat) : ℚ) / 1000,
     ((rngNat seed (totalPoints + i) % 1000 : Nat) : ℚ) / 1000,
     ((rngNat seed (2 * totalPoints + i) % 1000 : Nat) : ℚ) / 1000)

/-- The SAFETY_NET block at the end of `_generate_sync`: deterministic
positions from the text-derived seed, normalized, and part ids
`rng.integers(0, template.num_parts, total_points).astype(np.uint8)`. -/
def safetyNet (text : List Char) (tmpl : TemplateInfo) (totalPoints : Nat) :
    List Centroid × List Nat :=
  let seed := safetySeed text
  let positions := normalize_positions (mockPositions seed totalPoints)
  let partIds := (List.range totalPoints).map fun i =>
    rngNat seed (3 * totalPoints + i) % tmpl.num_parts % 256
  (positions, partIds)

/-- The tuple `_generate_sync` returns. -/
structure SyncResult where
  positions : List Centroid
  partIds : List Nat
  partNames : List (List Char)
  tier : String
deriving DecidableEq, Repr

/-- The mock return of `_generate_sync` (tier is whatever `pipeline_used`
holds when the safety net runs: `"mock"` or `"sdxl_turbo+mock"`). -/
def mkMock (text : List Char) (tmpl : TemplateInfo) (totalPoints : Nat)
    (tier : String) : SyncResult :=
  ⟨(safetyNet text tmpl totalPoints).1, (safetyNet text tmpl totalPoints).2,
    tmpl.part_names, tier⟩

/-- The per-request behavior of the external collaborators and the device,
as observed by `_generate_sync`: each opaque call's outcome is a field.
The two samplers are repository code absent from the analyzed sources
(`point_sampler.py`); their outputs are opaque data. -/
structure GenEnv where
  sdxlResult : Except PyErr Unit
  partcrafterResult : Except PyErr (List Mesh)
  hunyuanLoad : Except PyErr Unit
  samLoad : Except PyErr Unit
  hunyuanGen : Except PyErr Mesh
  elapsedAfterMeshGen : ℚ
  renderResult : Except PyErr (List (List Int))
  segmentResult : Except PyErr (List (List (List Char × List Bool)))
  torchAvailable : Bool
  cudaAvailable : Bool
  allocatedGb : ℚ
  samplePartMeshes : List Mesh → Nat → List Centroid × List Nat
  sampleLabeledMesh : Mesh → List Int → Nat → List Centroid × List Nat

/-- `getattr(self._settings, "fallback_timeout_seconds", 15)`. -/
def fallbackTimeout (s : Settings) : ℚ :=
  match s.getattrNum "fallback_timeout_seconds" with
  | some v => v
  | none => 15

/-- The VRAM-offload epilogue of the fallback (pipeline.py lines 351–368):
when torch imports and CUDA is available, read
`settings.vram_offload_threshold_gb` — an undeclared field, so the read
raises `AttributeError` — and above the threshold call
`registry.unload(...)` twice — a method `ModelRegistry` does not define.
Only an `ImportError` is swallowed; these `AttributeError`s escape into the
fallback's `except` handler. -/
def vramBlock (env : GenEnv) (s : Settings) : Except PyErr Unit :=
  if env.torchAvailable then
    if env.cudaAvailable then
      match s.getattrNum "vram_offload_threshold_gb" with
      | none => Except.error (PyErr.attributeError "vram_offload_threshold_gb")
      | some thr =>
        if env.allocatedGb > thr then
          match callRegistryMethod "unload" with
          | Except.error e => Except.error e
          | Except.ok () => callRegistryMethod "unload"
        else Except.ok ()
    else Except.ok ()
  else Except.ok ()

/-- The fallback try-body (pipeline.py lines 280–370): lazy-load the two
fallback collaborators, generate the monolithic mesh, check the cumulative
fallback timeout, render, segment, fuse masks to faces, sample, run the
VRAM epilogue, and return with tier `"hunyuan3d_grounded_sam"`.

A raised exception carries the value the local `pipeline_used` holds at
the raise site: every stage up to and including sampling raises while it
still holds `tierSoFar` (`"sdxl_turbo+mock"`), but
`pipeline_used = "hunyuan3d_grounded_sam"` is assigned at pipeline.py:336,
*before* the VRAM epilogue (lines 351–368), so an epilogue failure carries
`"hunyuan3d_grounded_sam"` into the `except` handler. -/
def runFallback (env : GenEnv) (s : Settings) (tmpl : TemplateInfo)
    (totalPoints : Nat) (tierSoFar : String) :
    Except (PyErr × String) SyncResult :=
  match env.hunyuanLoad with
  | Except.error e => Except.error (e, tierSoFar)
  | Except.ok () =>
    match env.samLoad with
    | Except.error e => Except.error (e, tierSoFar)
    | Except.ok () =>
      match env.hunyuanGen with
      | Except.error e => Except.error (e, tierSoFar)
      | Except.ok mesh =>
        if env.elapsedAfterMeshGen > fallbackTimeout s then
          Except.error (PyErr.timeoutError, tierSoFar)
        else
          match env.renderResult with
          | Except.error e => Except.error (e, tierSoFar)
          | Except.ok fidMaps =>
            match env.segmentResult with
            | Except.error e => Except.error (e, tierSoFar)
            | Except.ok masksPerView =>
              let faceLabels := map_masks_to_faces (masksPerView.zip fidMaps)
                mesh.faceCenters tmpl.part_names
              let sampled := env.sampleLabeledMesh mesh faceLabels totalPoints
              match vramBlock env s with
              | Except.error e => Except.error (e, "hunyuan3d_grounded_sam")
              | Except.ok () =>
                Except.ok ⟨sampled.1, sampled.2, tmpl.part_names,
                  "hunyuan3d_grounded_sam"⟩

/-- The fallback attempt plus its `except` handler: a CUDA OOM is
re-raised to the caller's handler; every other exception is logged and the
run falls to the safety net carrying whatever the local `pipeline_used`
held when the exception was raised. -/
def fallbackOr (env : GenEnv) (s : Settings) (text : List Char)
    (tmpl : TemplateInfo) (totalPoints : Nat) (tierSoFar : String) :
    Except PyErr SyncResult :=
  match runFallback env s tmpl totalPoints tierSoFar with
  | Except.ok r => Except.ok r
  | Except.error (e, tierNow) =>
    if e = PyErr.oom then Except.error PyErr.oom
    else Except.ok (mkMock text tmpl totalPoints tierNow)

/-- `_generate_sync`: image synthesis (when `sdxl_turbo` is loaded), then
the PartCrafter primary path — which succeeds whenever at least one
returned mesh is non-dummy; the `real_count < max(num_parts * 0.5, 1)`
comparison only logs a warning — then the fallback, then the safety net.
Exceptions from image synthesis or PartCrafter escape uncaught (the caller
wraps them); fallback errors are demoted per `fallbackOr`. -/
def generateSync (env : GenEnv) (registry : List String) (s : Settings)
    (text : List Char) (tmpl : TemplateInfo) : Except PyErr SyncResult :=
  let totalPoints := s.max_points
  if "sdxl_turbo" ∈ registry then
    match env.sdxlResult with
    | Except.error e => Except.error e
    | Except.ok () =>
      if "partcrafter" ∈ registry then
        match env.partcrafterResult with
        | Except.error e => Except.error e
        | Except.ok partMeshes =>
          let validMeshes := partMeshes.filter fun m => 1 < m.vertexCount
          if validMeshes.isEmpty then
            fallbackOr env s text tmpl totalPoints "sdxl_turbo+mock"
          else
            let sampled := env.samplePartMeshes validMeshes totalPoints
            Except.ok ⟨sampled.1, sampled.2,
              tmpl.part_names.take validMeshes.length, "partcrafter"⟩
      else fallbackOr env s text tmpl totalPoints "sdxl_turbo+mock"
  else Except.ok (mkMock text tmpl totalPoints "mock")

/-! ### Structural lemmas about the pipeline tiers -/

lemma runFallback_tier {env : GenEnv} {s : Settings} {tmpl : TemplateInfo}
    {pts : Nat} {t0 : String} {r : SyncResult}
    (h : runFallback env s tmpl pts t0 = Except.ok r) :
    r.tier = "hunyuan3d_grounded_sam" := by
  unfold runFallback at h
  split at h
  · cases h
  · split at h
    · cases h
    · split at h
      · cases h
      · split at h
        · cases h
        · split at h
          · cases h
          · split at h
            · cases h
            · split at h
              · cases h
              · rw [Except.ok.injEq] at h
                rw [← h]

/-- A fallback failure escapes with `pipeline_used` equal to the tier at
entry (pre-sampling stages) or `"hunyuan3d_grounded_sam"` (the VRAM
epilogue, after the reassignment at pipeline.py:336). -/
lemma runFallback_error_tier {env : GenEnv} {s : Settings}
    {tmpl : TemplateInfo} {pts : Nat} {t0 : String} {e : PyErr} {t : String}
    (h : runFallback env s tmpl pts t0 = Except.error (e, t)) :
    t = t0 ∨ t = "hunyuan3d_grounded_sam" := by
  unfold runFallback at h
  split at h
  · rw [Except.error.injEq, Prod.mk.injEq] at h
    exact Or.inl h.2.symm
  · split at h
    · rw [Except.error.injEq, Prod.mk.injEq] at h
      exact Or.inl h.2.symm
    · split at h
      · rw [Except.error.injEq, Prod.mk.injEq] at h
        exact Or.inl h.2.symm
      · split at h
        · rw [Except.error.injEq, Prod.mk.injEq] at h
          exact Or.inl h.2.symm
        · split at h
          · rw [Except.error.injEq, Prod.mk.injEq] at h
            exact Or.inl h.2.symm
          · split at h
            · rw [Except.error.injEq, Prod.mk.injEq] at h
              exact Or.inl h.2.symm
            · split at h
              · rw [Except.error.injEq, Prod.mk.injEq] at h
                exact Or.inr h.2.symm
              · cases h

lemma fallbackOr_char {env : GenEnv} {s : Settings} {text : List Char}
    {tmpl : TemplateInfo} {pts : Nat} {tierSoFar : String} {r : SyncResult}
    (h : fallbackOr env s text tmpl pts tierSoFar = Except.ok r) :
    r.tier = "hunyuan3d_grounded_sam" ∨ r = mkMock text tmpl pts tierSoFar ∨
      r = mkMock text tmpl pts "hunyuan3d_grounded_sam" := by
  unfold fallbackOr at h
  split at h
  · next hr =>
    rw [Except.ok.injEq] at h
    exact Or.inl (h ▸ runFallback_tier hr)
  · next e tierNow hr =>
    split at h
    · cases h
    · rw [Except.ok.injEq] at h
      rcases runFallback_error_tier hr with ht | ht
      · exact Or.inr (Or.inl (by rw [← h, ht]))
      · exact Or.inr (Or.inr (by rw [← h, ht]))

/-- C5 (amended): on the miss path, the pipeline tier of a successful
`_generate_sync` result is one of exactly the four literal values the code
produces — `"mock"`, `"sdxl_turbo+mock"`, `"partcrafter"`,
`"hunyuan3d_grounded_sam"` — never the spec's `"primary"` or `"fallback"`.
The value does not pin the producing strategy: `"hunyuan3d_grounded_sam"`
is reported both by a successful fallback and by the safety net when the
fallback fails after its sampling step (`pipeline_used` is reassigned at
pipeline.py:336 before the VRAM epilogue), so the safety net has three
representations. -/
theorem generateSync_tier_one_of_four (env : GenEnv) (registry : List String)
    (s : Settings) (text : List Char) (tmpl : TemplateInfo) (r : SyncResult)
    (h : generateSync env registry s text tmpl = Except.ok r) :
    r.tier = "mock" ∨ r.tier = "sdxl_turbo+mock" ∨ r.tier = "partcrafter" ∨
      r.tier = "hunyuan3d_grounded_sam" := by
  unfold generateSync at h
  dsimp only at h
  split at h
  · split at h
    · cases h
    · split at h
      · split at h
        · cases h
        · split at h
          · rcases fallbackOr_char h with hc | hc | hc
            · exact Or.inr (Or.inr (Or.inr hc))
            · exact Or.inr (Or.inl (by rw [hc]; rfl))
            · exact Or.inr (Or.inr (Or.inr (by rw [hc]; rfl)))
          · rw [Except.ok.injEq] at h
            exact Or.inr (Or.inr (Or.inl (by rw [← h])))
      · rcases fallbackOr_char h with hc | hc | hc
        · exact Or.inr (Or.inr (Or.inr hc))
        · exact Or.inr (Or.inl (by rw [hc]; rfl))
        · exact Or.inr (Or.inr (Or.inr (by rw [hc]; rfl)))
  · rw [Except.ok.injEq] at h
    exact Or.inl (by rw [← h]; rfl)

/-- C5 witness: the four-value theorem applied to a concrete run (no
models loaded, so the safety net answers with tier `"mock"`). -/
theorem generateSync_tier_witness :
    ("mock" : String) = "mock" ∨ ("mock" : String) = "sdxl_turbo+mock" ∨
      ("mock" : String) = "partcrafter" ∨
      ("mock" : String) = "hunyuan3d_grounded_sam" := by
  refine generateSync_tier_one_of_four
    ⟨Except.ok (), Except.ok [], Except.ok (), Except.ok (),
      Except.ok ⟨0, []⟩, 0, Except.ok [], Except.ok [], false, false, 0,
      (fun _ _ => ([], [])), (fun _ _ _ => ([], []))⟩
    [] { defaultSettings with max_points := 2 } ['c', 'a', 't']
    ⟨"quadruped", 6, []⟩
    (mkMock ['c', 'a', 't'] ⟨"quadruped", 6, []⟩ 2 "mock") rfl

/-- An environment whose fallback load fails outright (the lazy
`get_or_load` factory raises). -/
def envLoadFails : GenEnv :=
  ⟨Except.ok (), Except.ok [], Except.error (PyErr.modelError "no weights"),
   Except.ok (), Except.ok ⟨0, []⟩, 0, Except.ok [], Except.ok [], false,
   false, 0, (fun _ _ => ([], [])), (fun _ _ _ => ([], []))⟩

/-- C5 counterexample: when image synthesis succeeds but PartCrafter is
absent and the fallback fails, the returned tier is the fourth value
`"sdxl_turbo+mock"`, which is none of the three values
`"primary" | "fallback" | "mock"` the claim allows (indeed no code path
ever produces the strings `"primary"` or `"fallback"`). -/
theorem tier_outside_spec_values :
    (generateSync envLoadFails ["sdxl_turbo"]
        { defaultSettings with max_points := 4 } ['c', 'a', 't']
        ⟨"quadruped", 6, []⟩).map (fun r => r.tier) =
      Except.ok "sdxl_turbo+mock" ∧
      ¬(("sdxl_turbo+mock" : String) = "primary" ∨
        ("sdxl_turbo+mock" : String) = "fallback" ∨
        ("sdxl_turbo+mock" : String) = "mock") :=
  ⟨rfl, by decide⟩

/-! ### C1: the insufficiency threshold is only a log line -/

/-- A six-part template for the threshold scenario. -/
def tmplSix : TemplateInfo :=
  ⟨"quadruped", 6,
    [['b', 'o', 'd', 'y'], ['h', 'e', 'a', 'd'], ['l', '1'], ['l', '2'],
     ['l', '3'], ['l', '4']]⟩

/-- An environment where PartCrafter returns one real mesh and five
single-vertex dummies against an expected six parts. -/
def envOneValid : GenEnv :=
  ⟨Except.ok (),
   Except.ok [⟨3, []⟩, ⟨1, []⟩, ⟨1, []⟩, ⟨1, []⟩, ⟨1, []⟩, ⟨1, []⟩],
   Except.ok (), Except.ok (), Except.ok ⟨0, []⟩, 0, Except.ok [],
   Except.ok [], false, false, 0,
   (fun _ _ => ([(0, 0, 0)], [0])), (fun _ _ _ => ([], []))⟩

/-- C1 counterexample: with 1 valid mesh against an expected 6, the count
is strictly below the `max(6 * 0.5, 1) = 3` threshold, yet the request
completes on the PRIMARY tier (`"partcrafter"`) — the threshold comparison
in `_generate_sync` only logs a warning and never falls through. -/
theorem primary_below_threshold_still_primary :
    countValid [⟨3, []⟩, ⟨1, []⟩, ⟨1, []⟩, ⟨1, []⟩, ⟨1, []⟩, ⟨1, []⟩] = 1 ∧
      ((countValid [⟨3, []⟩, ⟨1, []⟩, ⟨1, []⟩, ⟨1, []⟩, ⟨1, []⟩, ⟨1, []⟩] : ℚ) <
        primaryThreshold tmplSix.num_parts) ∧
      (generateSync envOneValid ["sdxl_turbo", "partcrafter"]
          { defaultSettings with max_points := 4 } ['h', 'o', 'r', 's', 'e']
          tmplSix).map (fun r => r.tier) = Except.ok "partcrafter" := by
  refine ⟨rfl, ?_, rfl⟩
  show ((1 : ℕ) : ℚ) < primaryThreshold 6
  rw [primaryThreshold]
  norm_num

/-- C1 (amended): when image synthesis runs and PartCrafter returns, the
PRIMARY tier succeeds if and only if at least one part mesh is valid (more
than one vertex); the `max(expected/2, 1)` threshold is compared only to
emit a warning log, so counts below it (but above zero) still succeed as
PRIMARY instead of falling through to the fallback. -/
theorem primary_succeeds_iff_any_valid (env : GenEnv) (registry : List String)
    (s : Settings) (text : List Char) (tmpl : TemplateInfo)
    (meshes : List Mesh)
    (hsd : "sdxl_turbo" ∈ registry) (hsdok : env.sdxlResult = Except.ok ())
    (hpc : "partcrafter" ∈ registry)
    (hpm : env.partcrafterResult = Except.ok meshes) :
    (∃ r, generateSync env registry s text tmpl = Except.ok r ∧
      r.tier = "partcrafter") ↔ 0 < countValid meshes := by
  unfold generateSync
  dsimp only
  simp only [if_pos hsd, hsdok, if_pos hpc, hpm]
  constructor
  · rintro ⟨r, hr, ht⟩
    by_contra h0
    have hempty : (meshes.filter fun m => 1 < m.vertexCount).isEmpty = true := by
      rw [List.isEmpty_iff_length_eq_zero]
      unfold countValid at h0
      omega
    rw [if_pos hempty] at hr
    rcases fallbackOr_char hr with hc | hc | hc
    · rw [ht] at hc
      simp at hc
    · rw [hc] at ht
      simp [mkMock] at ht
    · rw [hc] at ht
      simp [mkMock] at ht
  · intro h0
    rw [if_neg (by
      intro hcon
      rw [List.isEmpty_iff_length_eq_zero] at hcon
      unfold countValid at h0
      omega)]
    exact ⟨_, rfl, rfl⟩

/-- C1 witness: the amended characterization at the concrete one-valid-mesh
scene. -/
theorem primary_succeeds_iff_any_valid_witness :
    ∃ r, generateSync envOneValid ["sdxl_turbo", "partcrafter"]
        { defaultSettings with max_points := 4 } ['h', 'o', 'r', 's', 'e']
        tmplSix = Except.ok r ∧ r.tier = "partcrafter" :=
  (primary_succeeds_iff_any_valid envOneValid ["sdxl_turbo", "partcrafter"]
    { defaultSettings with max_points := 4 } ['h', 'o', 'r', 's', 'e'] tmplSix
    [⟨3, []⟩, ⟨1, []⟩, ⟨1, []⟩, ⟨1, []⟩, ⟨1, []⟩, ⟨1, []⟩]
    (by decide) rfl (by decide) rfl).mpr (by decide)

/-! ### C6: the registry has no `unload`, and the orchestrator pays for it -/

/-- A template for the fallback scenario. -/
def tmplBody : TemplateInfo := ⟨"quadruped", 4, [['b', 'o', 'd', 'y']]⟩

/-- An environment where every fallback stage succeeds, torch and CUDA are
available, and allocated device memory is high (20 GB). -/
def envFallbackOk : GenEnv :=
  ⟨Except.ok (), Except.ok [], Except.ok (), Except.ok (),
   Except.ok ⟨8, [(0, 0, 0)]⟩, 1, Except.ok [[0]],
   Except.ok [[(['b', 'o', 'd', 'y'], [true])]], true, true, 20,
   (fun _ _ => ([], [])), (fun _ _ _ => ([(1, 1, 1)], [2]))⟩

/-- C6: `ModelRegistry` defines no `unload` attribute, and `Settings`
declares no `vram_offload_threshold_gb`; consequently the VRAM-offload
epilogue raises `AttributeError` inside the fallback's `try`, and a
fallback generation in which every stage succeeded is demoted to the
safety net whenever CUDA is available — the mock geometry is returned
still labeled `"hunyuan3d_grounded_sam"`, because `pipeline_used` was
reassigned at pipeline.py:336 before the epilogue raised.  The models are
never unloaded and `has` never becomes false that way. -/
theorem registry_unload_missing_demotes_fallback :
    "unload" ∉ registryMethods ∧
      defaultSettings.getattrNum "vram_offload_threshold_gb" = none ∧
      runFallback envFallbackOk { defaultSettings with max_points := 4 }
        tmplBody 4 "sdxl_turbo+mock" =
        Except.error (PyErr.attributeError "vram_offload_threshold_gb",
          "hunyuan3d_grounded_sam") ∧
      generateSync envFallbackOk ["sdxl_turbo"]
          { defaultSettings with max_points := 4 } ['c', 'a', 't'] tmplBody =
        Except.ok (mkMock ['c', 'a', 't'] tmplBody 4 "hunyuan3d_grounded_sam") :=
  ⟨by decide, rfl, rfl, rfl⟩

/-! ### C7: the rate check cannot even read its ceiling -/

/-- C7: the miss-path admission check of `_generate_traced` reads
`settings.generation_rate_limit_per_minute`, a field `Settings` does not
declare; so even a request with an empty generation window — which the
claim says must pass the admission check — fails with `AttributeError`
(and no request is ever admitted or properly rate-limited while metrics
are enabled). -/
theorem rate_check_raises_attribute_error :
    defaultSettings.getattrNum "generation_rate_limit_per_minute" = none ∧
      recentGenerations [] 0 = 0 ∧
      rateCheck true [] 0 defaultSettings =
        Except.error (PyErr.attributeError "generation_rate_limit_per_minute") :=
  ⟨rfl, rfl, rfl⟩

/-! ### C8: the safety net is deterministic in the text and id-bounded -/

/-- The conditions under which `_generate_sync` reaches its SAFETY_NET
block: either image synthesis never ran (`sdxl_turbo` not loaded), or it
succeeded, the primary path yielded nothing usable (PartCrafter absent, or
it returned with zero valid meshes), and the fallback attempt raised a
non-OOM exception (of any stage, the VRAM epilogue included).  This is
exactly the control flow of pipeline.py; note the tier such a run reports
may be `"mock"`, `"sdxl_turbo+mock"` or — for a post-sampling fallback
failure — `"hunyuan3d_grounded_sam"`. -/
def reachesSafetyNet (env : GenEnv) (registry : List String) (s : Settings)
    (tmpl : TemplateInfo) : Prop :=
  "sdxl_turbo" ∉ registry ∨
    ("sdxl_turbo" ∈ registry ∧ env.sdxlResult = Except.ok () ∧
      (∃ e t, runFallback env s tmpl s.max_points "sdxl_turbo+mock" =
          Except.error (e, t) ∧ e ≠ PyErr.oom) ∧
      ("partcrafter" ∉ registry ∨
        ∃ meshes, env.partcrafterResult = Except.ok meshes ∧
          countValid meshes = 0))

lemma fallbackOr_of_soft_error {env : GenEnv} {s : Settings}
    {text : List Char} {tmpl : TemplateInfo} {pts : Nat} {t0 : String}
    {e : PyErr} {t : String} {r : SyncResult}
    (hrf : runFallback env s tmpl pts t0 = Except.error (e, t))
    (hene : e ≠ PyErr.oom)
    (h : fallbackOr env s text tmpl pts t0 = Except.ok r) :
    r.positions = (safetyNet text tmpl pts).1 ∧
      r.partIds = (safetyNet text tmpl pts).2 := by
  unfold fallbackOr at h
  simp only [hrf] at h
  rw [if_neg hene, Except.ok.injEq] at h
  rw [← h]
  exact ⟨rfl, rfl⟩

lemma generateSync_safetyNet_run {env : GenEnv} {registry : List String}
    {s : Settings} {text : List Char} {tmpl : TemplateInfo} {r : SyncResult}
    (h : generateSync env registry s text tmpl = Except.ok r)
    (hs : reachesSafetyNet env registry s tmpl) :
    r.positions = (safetyNet text tmpl s.max_points).1 ∧
      r.partIds = (safetyNet text tmpl s.max_points).2 := by
  unfold generateSync at h
  dsimp only at h
  rcases hs with hs | ⟨hsd, hsdok, ⟨e, t, hrf, hene⟩, hpc⟩
  · rw [if_neg hs, Except.ok.injEq] at h
    rw [← h]
    exact ⟨rfl, rfl⟩
  · rw [if_pos hsd] at h
    simp only [hsdok] at h
    rcases hpc with hpc | ⟨meshes, hpm, hv0⟩
    · rw [if_neg hpc] at h
      exact fallbackOr_of_soft_error hrf hene h
    · by_cases hmem : "partcrafter" ∈ registry
      · rw [if_pos hmem] at h
        simp only [hpm] at h
        rw [if_pos (by
          rw [List.isEmpty_iff_length_eq_zero]
          unfold countValid at hv0
          exact hv0)] at h
        exact fallbackOr_of_soft_error hrf hene h
      · rw [if_neg hmem] at h
        exact fallbackOr_of_soft_error hrf hene h

lemma safetyNet_ids_lt {text : List Char} {tmpl : TemplateInfo} {pts : Nat}
    (h : 0 < tmpl.num_parts) :
    ∀ x ∈ (safetyNet text tmpl pts).2, x < tmpl.num_parts := by
  intro x hx
  unfold safetyNet at hx
  dsimp only at hx
  rw [List.mem_map] at hx
  obtain ⟨i, _, hxe⟩ := hx
  rw [← hxe]
  have h1 : rngNat (safetySeed text) (3 * pts + i) % tmpl.num_parts <
      tmpl.num_parts := Nat.mod_lt _ h
  have h2 : rngNat (safetySeed text) (3 * pts + i) % tmpl.num_parts % 256 ≤
      rngNat (safetySeed text) (3 * pts + i) % tmpl.num_parts := Nat.mod_le _ _
  omega

/-- C8: the SAFETY_NET tier is deterministic in the input text — any two
runs that reach the safety-net branch (whether tagged `"mock"`,
`"sdxl_turbo+mock"`, or `"hunyuan3d_grounded_sam"` after a post-sampling
fallback demotion) with the same text, template and settings produce
identical point positions and identical part-id arrays, whatever the
collaborators and registry did — and every generated part id lies strictly
below the template's declared part count. -/
theorem safety_net_deterministic_and_bounded
    (env1 env2 : GenEnv) (reg1 reg2 : List String) (s : Settings)
    (text : List Char) (tmpl : TemplateInfo) (r1 r2 : SyncResult)
    (h1 : generateSync env1 reg1 s text tmpl = Except.ok r1)
    (h2 : generateSync env2 reg2 s text tmpl = Except.ok r2)
    (hs1 : reachesSafetyNet env1 reg1 s tmpl)
    (hs2 : reachesSafetyNet env2 reg2 s tmpl)
    (hp : 0 < tmpl.num_parts) :
    r1.positions = r2.positions ∧ r1.partIds = r2.partIds ∧
      ∀ x ∈ r1.partIds, x < tmpl.num_parts := by
  obtain ⟨hp1, hi1⟩ := generateSync_safetyNet_run h1 hs1
  obtain ⟨hp2, hi2⟩ := generateSync_safetyNet_run h2 hs2
  refine ⟨hp1.trans hp2.symm, hi1.trans hi2.symm, ?_⟩
  rw [hi1]
  exact safetyNet_ids_lt hp

/-- C8 witness: two concrete safety-net runs through different
environments — one with no models loaded at all (tier `"mock"`), one on a
CUDA host where every fallback stage succeeded and the VRAM epilogue's
`AttributeError` demoted the run (tier `"hunyuan3d_grounded_sam"`) — give
identical safety-net geometry, with ids below the declared 6 parts. -/
theorem safety_net_deterministic_witness :
    (mkMock ['c', 'a', 't'] ⟨"quadruped", 6, []⟩ 4 "mock").positions =
        (mkMock ['c', 'a', 't'] ⟨"quadruped", 6, []⟩ 4
          "hunyuan3d_grounded_sam").positions ∧
      (mkMock ['c', 'a', 't'] ⟨"quadruped", 6, []⟩ 4 "mock").partIds =
        (mkMock ['c', 'a', 't'] ⟨"quadruped", 6, []⟩ 4
          "hunyuan3d_grounded_sam").partIds ∧
      ∀ x ∈ (mkMock ['c', 'a', 't'] ⟨"quadruped", 6, []⟩ 4 "mock").partIds,
        x < (⟨"quadruped", 6, []⟩ : TemplateInfo).num_parts :=
  safety_net_deterministic_and_bounded envLoadFails envFallbackOk []
    ["sdxl_turbo"] { defaultSettings with max_points := 4 } ['c', 'a', 't']
    ⟨"quadruped", 6, []⟩
    (mkMock ['c', 'a', 't'] ⟨"quadruped", 6, []⟩ 4 "mock")
    (mkMock ['c', 'a', 't'] ⟨"quadruped", 6, []⟩ 4 "hunyuan3d_grounded_sam")
    rfl rfl (Or.inl (by decide))
    (Or.inr ⟨by decide, rfl,
      ⟨PyErr.attributeError "vram_offload_threshold_gb",
        "hunyuan3d_grounded_sam", rfl, by decide⟩,
      Or.inl (by decide)⟩)
    (by decide)

end Embers
